import Mathlib

/-!
# Verification of the match-event reconstruction engine (`patterns.py`)

This file gives a shallow embedding of `src/backend/analysis/patterns.py`
(the event-extraction engine of the ssbu-coach repository) and proves or
refutes the frozen specification claims about it.

Modelling conventions, chosen to keep the embedding faithful:

* `timestamp` is modelled as `Int` (exact arithmetic; the Python source
  uses floating-point seconds, but every comparison the engine makes on
  timestamps is an order comparison against integral thresholds, and the
  concrete inputs below use integral timestamps, on which both systems
  agree exactly).
* Damage percents and stock counts are modelled as `Option Int` — OCR
  readings are integers (the smoother itself truncates every smoothed
  percent with `int(...)`, so on integer inputs `int()` is the identity).
* A Python `x or 0` on a number-or-None is `Option.getD _ 0` (both send
  `None` and `0` to `0`); Python truthiness tests on numbers are `≠ 0`
  tests and are embedded as such where the source relies on them.
* `len(xs) * 0.9`-style float products appear only in comparisons and
  are embedded as exact integer cross-multiplications (`9 * n ≤ 10 * i`
  for `i >= len * 0.9`, `3 * n ≤ 4 * i` for `i >= len * 0.75`, and
  `3 * taken < 10 * back` for `back > taken * 0.3`); the concrete inputs
  below keep away from float-rounding boundaries so the branch taken
  agrees with the Python.
* Python's `max(set(xs), key=xs.count)` (stock mode) is embedded as the
  first value, in window order, attaining the maximal count; CPython's
  set iteration order may resolve ties differently, and every concrete
  input used below is tie-free.
* The dead local `final_events` of `_deduplicate_events`, the dead
  `percents_look_stuck` of the neutral detector, the unused
  `current_percent` of `detect_stock_loss`, the never-written
  `comebacks` list, and the unused helper `detect_combos` are omitted.
* The three phase helpers (`_compute_game_phases`,
  `_compute_after_death_phases`, `_compute_stage_control`) are additive
  post-passes not referenced by any claim; the modelled `Patterns`
  structure covers every field the claims mention.
* In the source, `'prev_timestamp' in dir()` guards the `end` field of a
  flushed combo; a flush requires `combo_start` to have been set on an
  earlier processed sample, by which point `prev_timestamp` is assigned,
  so the guard is always true where it matters and the embedding carries
  `prevTs` in the state.
-/

namespace SSBU

/-- One raw telemetry sample (the `game_states` dict entries). -/
structure Sample where
  timestamp : Int
  p1_percent : Option Int
  p2_percent : Option Int
  p1_stocks : Option Int
  p2_stocks : Option Int
deriving DecidableEq, Repr

/-- Dummy sample used as the out-of-range default of list indexing
(every access in the model is in range, mirroring Python's checked
indexing). -/
def dummy : Sample := ⟨0, none, none, none, none⟩

instance : Inhabited Sample := ⟨dummy⟩

/-- Python's `value or 0` on an int-or-None field. -/
def orZero (o : Option Int) : Int := o.getD 0

/-- Field selectors, standing in for the `f"{player}_percent"` key strings. -/
def p1pct (s : Sample) : Option Int := s.p1_percent

/-- Selector for the `p2_percent` key. -/
def p2pct (s : Sample) : Option Int := s.p2_percent

/-- Selector for the `p1_stocks` key. -/
def p1stk (s : Sample) : Option Int := s.p1_stocks

/-- Selector for the `p2_stocks` key. -/
def p2stk (s : Sample) : Option Int := s.p2_stocks

/-- The `patterns["damage_spikes"]` / `patterns["damage_dealt"]` entries. -/
structure DamageSpikeEvent where
  timestamp : Int
  damage : Int
  from_percent : Int
  to_percent : Int
deriving DecidableEq, Repr

/-- The `patterns["stock_losses"]` entries.  `is_game_ender` is present
(with value `True`) only on the synthesized end-of-stream death. -/
structure StockLossEvent where
  timestamp : Int
  percent : Int
  stocks_remaining : Int
  is_game_ender : Bool
deriving DecidableEq, Repr

/-- The `patterns["kills"]` entries. -/
structure KillEvent where
  timestamp : Int
  opponent_percent : Int
  opponent_stocks_remaining : Int
  is_game_winner : Bool
deriving DecidableEq, Repr

/-- The `patterns["combos"]` entries (`end` is named `stop` here because
`end` is a Lean keyword). -/
structure ComboEvent where
  start : Int
  stop : Int
  damage : Int
  from_percent : Int
  to_percent : Int
  hits : Int
deriving DecidableEq, Repr

/-- The `patterns["long_neutral"]` entries. -/
structure NeutralEvent where
  start : Int
  stop : Int
  duration : Int
deriving DecidableEq, Repr

/-- The `patterns["edgeguards"]` entries. -/
structure EdgeguardEvent where
  timestamp : Int
  opponent_percent : Int
  your_damage_taken : Int
  damage_dealt_before : Int
  is_likely_edgeguard : Bool
  confidence : Nat
deriving DecidableEq, Repr

/-- The `patterns["got_edgeguarded"]` entries. -/
structure GotEdgeguardedEvent where
  timestamp : Int
  your_death_percent : Int
  opponent_damage_taken : Int
  damage_you_took_before : Int
  confidence : Nat
deriving DecidableEq, Repr

/-- The `patterns["recovery_moments"]` entries (their `type` field is the
constant string `"respawn_start"` and is omitted). -/
structure RecoveryEvent where
  timestamp : Int
  death_percent : Int
  stocks_remaining : Int
deriving DecidableEq, Repr

/-- The two momentum-swing directions. -/
inductive Momentum where
  | advantage
  | disadvantage
deriving DecidableEq, Repr

/-- The `patterns["momentum_swings"]` entries. -/
structure MomentumEvent where
  timestamp : Int
  mtype : Momentum
  damage_dealt : Int
  damage_taken : Int
deriving DecidableEq, Repr

/-- The result dictionary of `find_patterns` (the claim-relevant fields). -/
structure Patterns where
  damage_spikes : List DamageSpikeEvent
  damage_dealt : List DamageSpikeEvent
  stock_losses : List StockLossEvent
  kills : List KillEvent
  long_neutral : List NeutralEvent
  combos : List ComboEvent
  edgeguards : List EdgeguardEvent
  got_edgeguarded : List GotEdgeguardedEvent
  recovery_moments : List RecoveryEvent
  momentum_swings : List MomentumEvent
  game_start : Option Int
  game_end : Option Int
  p1_true_max_percent : Int
  p2_true_max_percent : Int
deriving DecidableEq, Repr

/-- The initial (empty) patterns dictionary. -/
def emptyPatterns : Patterns :=
  ⟨[], [], [], [], [], [], [], [], [], [], none, none, 0, 0⟩

/-! ## Smoother (`smooth_game_states`) -/

/-- Median as computed by the source: `sorted(xs)[len(xs) // 2]`. -/
def median (l : List Int) : Int :=
  (l.insertionSort (· ≤ ·)).getD (l.length / 2) 0

/-- Mode as computed by `max(set(xs), key=xs.count)`: a value of maximal
multiplicity (ties resolved to the first such value in list order; the
concrete inputs below are tie-free, see the header). -/
def modeOf (l : List Int) : Int :=
  l.foldl (fun best v => if l.count best < l.count v then v else best) (l.headD 0)

/-- The centered window `game_states[max(0, i-2) : min(len, i+3)]`. -/
def smoothWindow (game_states : List Sample) (i : Nat) : List Sample :=
  let s := i - 2
  let e := min game_states.length (i + 3)
  (game_states.drop s).take (e - s)

/-- One output sample of the smoother. -/
def smoothOne (game_states : List Sample) (i : Nat) : Sample :=
  let st := game_states.getD i dummy
  let w := smoothWindow game_states i
  let p1s := w.filterMap p1pct
  let p2s := w.filterMap p2pct
  let s1 := w.filterMap p1stk
  let s2 := w.filterMap p2stk
  { st with
    p1_percent := if p1s.isEmpty then st.p1_percent else some (median p1s)
    p2_percent := if p2s.isEmpty then st.p2_percent else some (median p2s)
    p1_stocks := if s1.isEmpty then st.p1_stocks
      else some (if st.p1_stocks = some 0 then 0 else modeOf s1)
    p2_stocks := if s2.isEmpty then st.p2_stocks
      else some (if st.p2_stocks = some 0 then 0 else modeOf s2) }

/-- `smooth_game_states`: median filtering for percents, mode for stocks,
with a raw stock reading of `0` always preserved verbatim. -/
def smooth_game_states (game_states : List Sample) : List Sample :=
  if game_states.length < 3 then game_states
  else (List.range game_states.length).map (smoothOne game_states)

/-! ## Leaf detectors -/

/-- `get_raw_max_before`: max percent of `player` over the raw samples in
`[max(0, end_idx - lookback), end_idx)`, `None` readings skipped, starting
from `0`. -/
def get_raw_max_before (game_states : List Sample) (pct : Sample → Option Int)
    (end_idx lookback : Nat) : Int :=
  let start_idx := end_idx - lookback
  (List.range' start_idx (end_idx - start_idx)).foldl
    (fun max_pct j =>
      if j < game_states.length then
        match pct (game_states.getD j dummy) with
        | some p => if max_pct < p then p else max_pct
        | none => max_pct
      else max_pct) 0

/-- The `timestamp_to_raw_idx` dict lookup with default: the last raw index
with the given timestamp, or the default. -/
def tsToRawIdx (game_states : List Sample) (ts : Int) (dflt : Nat) : Nat :=
  (List.range game_states.length).foldl
    (fun acc j => if (game_states.getD j dummy).timestamp = ts then j else acc) dflt

/-- `detect_death_by_percent_reset`: returns `some death_percent`
(`= max_recent_percent`) when the percent-reset fallback confirms a death. -/
def detect_death_by_percent_reset (game_states : List Sample) (current_idx : Nat)
    (pct : Sample → Option Int) (max_recent_percent prev_percent current_percent : Int) :
    Option Int :=
  if current_idx < 2 ∨ game_states.length ≤ current_idx + 2 then none
  else if max_recent_percent < 60 then none
  else if 15 < current_percent then none
  else if prev_percent < 30 then none
  else
    let persist_count := ((List.range' 1 (min 3 (game_states.length - current_idx) - 1)).filter
      fun j => match pct (game_states.getD (current_idx + j) dummy) with
        | some fp => decide (fp ≤ 20)
        | none => false).length
    if persist_count < 1 then none else some max_recent_percent

/-- `verify_damage_spike`: the elevated percent persists (within tolerance
20) in at least 1 of the next 2 samples. -/
def verify_damage_spike (game_states : List Sample) (current_idx : Nat)
    (pct : Sample → Option Int) (expected_percent : Int) : Bool :=
  let frames_to_check := min 2 (game_states.length - current_idx - 1)
  if frames_to_check < 1 then false
  else
    let persisting := ((List.range' 1 frames_to_check).filter
      fun j => match pct (game_states.getD (current_idx + j) dummy) with
        | some fp => decide (expected_percent - 20 ≤ fp)
        | none => false).length
    1 ≤ persisting

/-- `verify_quick_damage`: the damage accumulated within ≤ 5 seconds and
the damage dealt back in that window is at most 30% of it. -/
def verify_quick_damage (game_states : List Sample) (current_idx : Nat)
    (pct opp : Sample → Option Int) (from_percent to_percent : Int) : Bool :=
  if current_idx < 1 then true
  else
    let damage_taken := to_percent - from_percent
    if damage_taken < 20 then false
    else
      let start_idx :=
        match (List.range' 1 (min 15 current_idx - 1)).find?
          (fun j => match pct (game_states.getD (current_idx - j) dummy) with
            | some p => decide (p ≤ from_percent + 5)
            | none => false) with
        | some j => current_idx - j
        | none => current_idx
      let start_time := (game_states.getD start_idx dummy).timestamp
      let end_time := (game_states.getD current_idx dummy).timestamp
      if 5 < end_time - start_time then false
      else
        let damage_dealt_back := ((List.range' start_idx (current_idx + 1 - start_idx)).filter
            (0 < ·)).foldl
          (fun acc j =>
            let delta := max 0 (orZero (opp (game_states.getD j dummy)) -
              orZero (opp (game_states.getD (j - 1) dummy)))
            if delta < 60 then acc + delta else acc) 0
        ¬ (3 * damage_taken < 10 * damage_dealt_back)

/-- Validation 2 of `detect_stock_loss`: the number of samples among the
`min(3, current_idx + 1) - 1` immediately preceding ones whose stock
reading is `≥ confirmed_stocks` (the `prev_higher_count` loop). -/
def prev_higher_count (game_states : List Sample) (current_idx : Nat)
    (stk : Sample → Option Int) (confirmed_stocks : Int) : Nat :=
  ((List.range' 1 (min 3 (current_idx + 1) - 1)).filter
    fun j => match stk (game_states.getD (current_idx - j) dummy) with
      | some ps => decide (confirmed_stocks ≤ ps)
      | none => false).length

/-- `detect_stock_loss`: returns `some new_stocks` when the stock-count
signal confirms a loss (the dict's `death_percent` entry always equals
the `max_recent_percent` argument and is recovered at the call sites). -/
def detect_stock_loss (game_states : List Sample) (current_idx : Nat)
    (stk pct : Sample → Option Int) (confirmed_stocks max_recent_percent : Int)
    (game_start_time : Int) : Option Int :=
  if current_idx < 3 then none
  else
    let n := game_states.length
    let near_end_of_video := 9 * n ≤ 10 * current_idx
    let state := game_states.getD current_idx dummy
    match stk state with
    | none => none
    | some current_stocks =>
      if confirmed_stocks ≤ current_stocks then none
      else
        let time_into_game := state.timestamp - game_start_time
        let min_percent_required : Int := if 20 < time_into_game then 50 else 35
        if max_recent_percent < min_percent_required then none
        else if 180 < max_recent_percent then none
        else
          if prev_higher_count game_states current_idx stk confirmed_stocks < 2 then none
          else
            let frames_to_check := min 5 (n - current_idx - 1)
            let persisting_low_stock := ((List.range' 1 frames_to_check).filter
              fun j => match stk (game_states.getD (current_idx + j) dummy) with
                | some fs => decide (fs ≤ current_stocks)
                | none => false).length
            let required_persisting := if near_end_of_video then 1 else 4
            if near_end_of_video ∧ current_stocks = 0 ∧ frames_to_check < required_persisting
            then some 0
            else if persisting_low_stock < required_persisting ∧
                required_persisting ≤ frames_to_check then none
            else if current_stocks = 0 then some 0
            else
              let percent_reset_confirmed := (List.range' 1 (min 5 (n - current_idx) - 1)).any
                fun j => match pct (game_states.getD (current_idx + j) dummy) with
                  | some fp => decide (fp < 15)
                  | none => false
              if percent_reset_confirmed then some current_stocks else none

/-! ## Start-boundary detection (the two scans at the top of `find_patterns`) -/

/-- The clean-start condition of one smoothed sample: both players read
percent ≤ 5 (a `None` percent reads as 0 through `or 0`) and exactly 3
stocks. -/
def isStartFrame (st : Sample) : Bool :=
  orZero st.p1_percent ≤ 5 ∧ orZero st.p2_percent ≤ 5 ∧
    st.p1_stocks = some 3 ∧ st.p2_stocks = some 3

/-- The first scan of `find_patterns`: 3+ consecutive start frames; the
start time is backdated to the first sample of the run
(`smoothed_states[i - 2]["timestamp"]`). -/
def findCleanStart (smoothed : List Sample) : Option Int :=
  ((List.range smoothed.length).foldl
    (fun acc i =>
      match acc with
      | (some t, c) => (some t, c)
      | (none, c) =>
        if isStartFrame (smoothed.getD i dummy) then
          if 3 ≤ c + 1 then (some (smoothed.getD (i - 2) dummy).timestamp, c + 1)
          else (none, c + 1)
        else (none, 0))
    ((none : Option Int), 0)).1

/-- The fallback scan: the first sample at or after t = 5 s with a
non-null percent (either player) and a non-null stock (either player). -/
def findFallbackStart (smoothed : List Sample) : Option Int :=
  (smoothed.find? fun st =>
    5 ≤ st.timestamp ∧ (st.p1_percent.isSome ∨ st.p2_percent.isSome) ∧
      (st.p1_stocks.isSome ∨ st.p2_stocks.isSome)).map (·.timestamp)

/-- The resolved `game_start` value (a `None` means neither scan found a
start and the loop's `game_start_time` stays `0`). -/
def resolveStart (smoothed : List Sample) : Option Int :=
  match findCleanStart smoothed with
  | some t => some t
  | none => findFallbackStart smoothed

/-! ## The main chronological pass -/

/-- The per-iteration context: values computed at the top of the loop body
before any state mutation. -/
structure Ctx where
  i : Nat
  timestamp : Int
  p1_percent : Int
  p2_percent : Int
  p1_damage_taken : Int
  p2_damage_taken : Int
deriving DecidableEq, Repr

/-- The mutable loop state of `find_patterns` (design note §9: the
global/mutable running counters as an explicit state record). -/
structure St where
  prev_p1 : Int
  prev_p2 : Int
  conf1 : Int
  conf2 : Int
  gameOver : Bool
  neutralStart : Option Int
  ns1 : Int
  ns2 : Int
  comboStart : Option Int
  comboDamage : Int
  comboHits : Int
  comboFrom : Int
  comboEnd : Int
  max1 : Int
  max2 : Int
  gmax1 : Int
  gmax2 : Int
  prevTs : Int
  pat : Patterns
deriving DecidableEq, Repr

/-- The loop state at entry of the pass. -/
def initSt (game_start : Option Int) : St :=
  ⟨0, 0, 3, 3, false, none, 0, 0, none, 0, 0, 0, 0, 0, 0, 0, 0, 0,
    { emptyPatterns with game_start := game_start }⟩

/-- Build the per-iteration context (the carry-forward of `None` percents
and the two damage deltas). -/
def mkCtx (st : St) (state : Sample) (i : Nat) : Ctx :=
  let p1 := state.p1_percent.getD st.prev_p1
  let p2 := state.p2_percent.getD st.prev_p2
  ⟨i, state.timestamp, p1, p2, max 0 (p1 - st.prev_p1), max 0 (p2 - st.prev_p2)⟩

/-- Stage: track `p1_max_recent_percent` / `p2_max_recent_percent` from the
raw sample at the matching index together with the carried smoothed value,
and the never-reset global maxima. -/
def trackMax (raw : List Sample) (c : Ctx) (st : St) : St :=
  let raw_idx := tsToRawIdx raw c.timestamp c.i
  let st :=
    if raw_idx < raw.length then
      let raw1 := orZero (raw.getD raw_idx dummy).p1_percent
      let raw2 := orZero (raw.getD raw_idx dummy).p2_percent
      { st with max1 := max st.max1 (max raw1 c.p1_percent),
                max2 := max st.max2 (max raw2 c.p2_percent) }
    else
      { st with max1 := max st.max1 c.p1_percent, max2 := max st.max2 c.p2_percent }
  { st with gmax1 := max st.gmax1 c.p1_percent, gmax2 := max st.gmax2 c.p2_percent }

/-- Stage: the two damage-spike detectors. -/
def spikeSection (smoothed : List Sample) (c : Ctx) (st : St) : St :=
  let st :=
    if 20 ≤ c.p1_damage_taken ∧ c.p1_damage_taken ≤ 80 ∧ st.prev_p1 < c.p1_percent ∧
        c.p1_percent ≤ 180 ∧ st.prev_p1 ≤ 180 ∧
        ¬ (st.prev_p1 = 0 ∧ 60 < c.p1_percent) ∧
        verify_damage_spike smoothed c.i p1pct c.p1_percent ∧
        verify_quick_damage smoothed c.i p1pct p2pct st.prev_p1 c.p1_percent then
      { st with pat := { st.pat with damage_spikes := st.pat.damage_spikes ++
          [⟨c.timestamp, c.p1_damage_taken, st.prev_p1, c.p1_percent⟩] } }
    else st
  if 15 ≤ c.p2_damage_taken ∧ c.p2_damage_taken ≤ 80 ∧ st.prev_p2 < c.p2_percent ∧
      c.p2_percent ≤ 200 ∧ st.prev_p2 ≤ 200 ∧
      ¬ (st.prev_p2 = 0 ∧ 60 < c.p2_percent) ∧
      verify_damage_spike smoothed c.i p2pct c.p2_percent then
    { st with pat := { st.pat with damage_dealt := st.pat.damage_dealt ++
        [⟨c.timestamp, c.p2_damage_taken, st.prev_p2, c.p2_percent⟩] } }
  else st

/-- Reset of the running combo accumulator. -/
def comboReset (st : St) : St :=
  { st with comboStart := none, comboDamage := 0, comboHits := 0,
            comboFrom := 0, comboEnd := 0 }

/-- Emit the running combo if it passes the `hits ≥ 3 ∧ damage > 25` bar
(the `combo_start and ...` truthiness guard suppresses the flush of a
combo started at timestamp `0`; embedded as the `cs ≠ 0` test). -/
def comboEmit (st : St) (to_percent : Int) : St :=
  match st.comboStart with
  | some cs =>
    if cs ≠ 0 ∧ 3 ≤ st.comboHits ∧ 25 < st.comboDamage then
      { st with pat := { st.pat with combos := st.pat.combos ++
          [⟨cs, st.prevTs, min st.comboDamage 100, st.comboFrom, to_percent,
            st.comboHits⟩] } }
    else st
  | none => st

/-- Stage: combo tracking (extension, trade break, 5-second restart,
3-second quiet timeout). -/
def comboSection (c : Ctx) (st : St) : St :=
  let capped_p2_damage := if 0 < c.p2_damage_taken then min c.p2_damage_taken 60 else 0
  let you_got_hit := 5 < c.p1_damage_taken
  if 8 < capped_p2_damage then
    if you_got_hit then
      let to_pct := if st.prev_p2 ≠ 0 then st.prev_p2 else st.comboFrom + st.comboDamage
      comboReset (comboEmit st to_pct)
    else
      match st.comboStart with
      | none =>
        let fromPct := if st.prev_p2 ≠ 0 then st.prev_p2 else 0
        { st with comboStart := some c.timestamp, comboFrom := fromPct,
                  comboDamage := capped_p2_damage, comboHits := 1,
                  comboEnd := if c.p2_percent ≠ 0 then c.p2_percent
                    else fromPct + capped_p2_damage }
      | some cs =>
        if 5 < c.timestamp - cs then
          let st :=
            if 3 ≤ st.comboHits ∧ 25 < st.comboDamage then
              { st with pat := { st.pat with combos := st.pat.combos ++
                  [⟨cs, st.prevTs, min st.comboDamage 100, st.comboFrom, st.comboEnd,
                    st.comboHits⟩] } }
            else st
          let fromPct := if st.prev_p2 ≠ 0 then st.prev_p2 else 0
          { st with comboStart := some c.timestamp, comboFrom := fromPct,
                    comboDamage := capped_p2_damage, comboHits := 1,
                    comboEnd := if c.p2_percent ≠ 0 then c.p2_percent
                      else fromPct + capped_p2_damage }
        else
          { st with comboDamage := st.comboDamage + capped_p2_damage,
                    comboHits := st.comboHits + 1,
                    comboEnd := if c.p2_percent ≠ 0 then c.p2_percent
                      else st.comboEnd + capped_p2_damage }
  else if you_got_hit then
    let to_pct := if st.comboEnd ≠ 0 then st.comboEnd else st.prev_p2
    comboReset (comboEmit st to_pct)
  else
    match st.comboStart with
    | some cs =>
      if cs ≠ 0 ∧ 3 < c.timestamp - cs then
        let to_pct := if st.comboEnd ≠ 0 then st.comboEnd else st.prev_p2
        comboReset (comboEmit st to_pct)
      else st
    | none => st

/-- Sum of the positive per-sample deltas of a (smoothed) percent field
over sample indices `[lo, hi)`, skipping `j = 0` — the common lookback
loop of the edgeguard heuristics. -/
def sumDeltas (smoothed : List Sample) (pct : Sample → Option Int) (lo hi : Nat) : Int :=
  ((List.range' lo (hi - lo)).filter (0 < ·)).foldl
    (fun acc j => acc + max 0 (orZero (pct (smoothed.getD j dummy)) -
      orZero (pct (smoothed.getD (j - 1) dummy)))) 0

/-- Stage: your (p1) stock losses — stock-count detection first, then the
percent-reset fallback (`death?` and `reset?` are the two detector
results computed from the pre-stage state). -/
def stockSection (raw : List Sample) (c : Ctx) (death? reset? : Option Int) (st : St) : St :=
  match death? with
  | some new_stocks =>
    let raw_idx := tsToRawIdx raw c.timestamp c.i
    let raw_p1_max := get_raw_max_before raw p1pct raw_idx 60
    let actual_percent := if 0 < raw_p1_max then raw_p1_max else st.max1
    { st with
      pat := { st.pat with stock_losses := st.pat.stock_losses ++
        [⟨c.timestamp, actual_percent, new_stocks, false⟩] }
      conf1 := new_stocks, max1 := 0, prev_p1 := 0,
      gameOver := if new_stocks = 0 then true else st.gameOver }
  | none =>
    match reset? with
    | some death_percent =>
      let conf1 := max 0 (st.conf1 - 1)
      let raw_idx := tsToRawIdx raw c.timestamp c.i
      let raw_p1_max := get_raw_max_before raw p1pct raw_idx 60
      let actual_percent := if 0 < raw_p1_max then raw_p1_max else death_percent
      { st with
        pat := { st.pat with stock_losses := st.pat.stock_losses ++
          [⟨c.timestamp, actual_percent, conf1, false⟩] }
        conf1 := conf1, max1 := 0, prev_p1 := 0,
        gameOver := if conf1 = 0 then true else st.gameOver }
    | none => st

/-- Stage: opponent (p2) stock losses = your kills, mirroring
`stockSection`. -/
def killSection (raw : List Sample) (c : Ctx) (death? reset? : Option Int) (st : St) : St :=
  match death? with
  | some new_stocks =>
    let raw_idx := tsToRawIdx raw c.timestamp c.i
    let raw_p2_max := get_raw_max_before raw p2pct raw_idx 60
    let actual_percent := if 0 < raw_p2_max then raw_p2_max else st.max2
    { st with
      pat := { st.pat with kills := st.pat.kills ++
        [⟨c.timestamp, actual_percent, new_stocks, false⟩] }
      conf2 := new_stocks, max2 := 0, prev_p2 := 0,
      gameOver := if new_stocks = 0 then true else st.gameOver }
  | none =>
    match reset? with
    | some death_percent =>
      let conf2 := max 0 (st.conf2 - 1)
      let raw_idx := tsToRawIdx raw c.timestamp c.i
      let raw_p2_max := get_raw_max_before raw p2pct raw_idx 60
      let actual_percent := if 0 < raw_p2_max then raw_p2_max else death_percent
      { st with
        pat := { st.pat with kills := st.pat.kills ++
          [⟨c.timestamp, actual_percent, conf2, false⟩] }
        conf2 := conf2, max2 := 0, prev_p2 := 0,
        gameOver := if conf2 = 0 then true else st.gameOver }
    | none => st

/-- Stage: `patterns["game_end"] = timestamp` once the game-over flag is
raised by either stock section. -/
def gameEndSection (c : Ctx) (st : St) : St :=
  if st.gameOver then { st with pat := { st.pat with game_end := some c.timestamp } }
  else st

/-- Stage: the two end-of-stream synthesized final events (percent reading
goes `None` at high percent within the last 25% of the stream). -/
def noneFallbackSection (smoothed : List Sample) (c : Ctx) (st : St) : St :=
  if st.gameOver then st
  else
    let st :=
      if 60 ≤ st.prev_p1 ∧ (smoothed.getD c.i dummy).p1_percent = none ∧
          3 * smoothed.length ≤ 4 * c.i ∧
          (st.pat.stock_losses.filter fun l => c.timestamp - 2 ≤ l.timestamp).isEmpty then
        { st with
          pat := { st.pat with
            stock_losses := st.pat.stock_losses ++ [⟨c.timestamp, st.prev_p1, 0, true⟩]
            game_end := some c.timestamp }
          gameOver := true }
      else st
    if ¬ st.gameOver ∧ 60 ≤ st.prev_p2 ∧ (smoothed.getD c.i dummy).p2_percent = none ∧
        3 * smoothed.length ≤ 4 * c.i ∧
        (st.pat.kills.filter fun k => c.timestamp - 2 ≤ k.timestamp).isEmpty then
      { st with
        pat := { st.pat with
          kills := st.pat.kills ++ [⟨c.timestamp, st.prev_p2, 0, true⟩]
          game_end := some c.timestamp }
        gameOver := true }
    else st

/-- Stage: edgeguard scoring of a confirmed kill (`killFired` together
with `kill_percent =` the `death_percent` captured before the kill
section reset `max2`). -/
def edgeguardSection (smoothed : List Sample) (c : Ctx) (killFired : Bool)
    (kill_percent : Int) (st : St) : St :=
  if ¬ killFired then st
  else
    let your_damage_during_kill := sumDeltas smoothed p1pct (c.i - 10) c.i
    let damage_dealt_before_kill := sumDeltas smoothed p2pct (c.i - 15) c.i
    let edgeguard_score : Nat :=
      (if 50 ≤ kill_percent ∧ kill_percent ≤ 145 then 1 else 0) +
      (if damage_dealt_before_kill < 30 then 1 else 0) +
      (if your_damage_during_kill ≤ 15 then 1 else 0) +
      (if your_damage_during_kill < 5 then 1 else 0)
    if 3 ≤ edgeguard_score then
      { st with pat := { st.pat with edgeguards := st.pat.edgeguards ++
          [⟨c.timestamp, kill_percent, your_damage_during_kill,
            damage_dealt_before_kill, 4 ≤ edgeguard_score, edgeguard_score⟩] } }
    else st

/-- Stage: recovery-moment bookkeeping and the mirrored
opponent-edgeguarded-you scoring of a confirmed p1 death (`death_pct` is
the `death_percent` captured before the stock section reset `max1`;
`stocks_remaining` reads the already-updated `conf1`). -/
def recoverySection (smoothed : List Sample) (c : Ctx) (deathFired : Bool)
    (death_pct : Int) (st : St) : St :=
  if ¬ deathFired then st
  else
    let st := { st with pat := { st.pat with recovery_moments :=
      st.pat.recovery_moments ++ [⟨c.timestamp, death_pct, st.conf1⟩] } }
    let opp_damage_during_your_death := sumDeltas smoothed p2pct (c.i - 10) c.i
    let damage_taken_before_death := sumDeltas smoothed p1pct (c.i - 10) c.i
    let edgeguard_score : Nat :=
      (if 50 ≤ death_pct ∧ death_pct ≤ 145 then 1 else 0) +
      (if opp_damage_during_your_death < 15 then 1 else 0) +
      (if damage_taken_before_death < 30 then 1 else 0) +
      (if opp_damage_during_your_death < 5 then 1 else 0)
    if 3 ≤ edgeguard_score then
      { st with pat := { st.pat with got_edgeguarded := st.pat.got_edgeguarded ++
          [⟨c.timestamp, death_pct, opp_damage_during_your_death,
            damage_taken_before_death, edgeguard_score⟩] } }
    else st

/-- Stage: momentum-swing detection (rate limited to one per 5 seconds). -/
def momentumSection (c : Ctx) (st : St) : St :=
  if 10 < c.p2_damage_taken ∧ c.p1_damage_taken < 5 then
    if st.pat.momentum_swings = [] ∨
        5 < c.timestamp - (st.pat.momentum_swings.getLastD
          (⟨0, Momentum.advantage, 0, 0⟩ : MomentumEvent)).timestamp then
      { st with pat := { st.pat with momentum_swings := st.pat.momentum_swings ++
          [⟨c.timestamp, Momentum.advantage, c.p2_damage_taken, c.p1_damage_taken⟩] } }
    else st
  else if 20 < c.p1_damage_taken ∧ c.p2_damage_taken < 5 then
    if st.pat.momentum_swings = [] ∨
        5 < c.timestamp - (st.pat.momentum_swings.getLastD
          (⟨0, Momentum.advantage, 0, 0⟩ : MomentumEvent)).timestamp then
      { st with pat := { st.pat with momentum_swings := st.pat.momentum_swings ++
          [⟨c.timestamp, Momentum.disadvantage, c.p2_damage_taken, c.p1_damage_taken⟩] } }
    else st
  else st

/-- Stage: long-neutral tracking (start/extend under quiet conditions,
close and possibly record otherwise). -/
def neutralSection (smoothed : List Sample) (c : Ctx) (st : St) : St :=
  let total_damage := c.p1_damage_taken + c.p2_damage_taken
  let is_respawn_period := c.p1_percent < 5 ∨ c.p2_percent < 5
  let recent_stock_loss :=
    (st.pat.stock_losses.any fun sl => |c.timestamp - sl.timestamp| < 10) ∨
    (st.pat.kills.any fun k => |c.timestamp - k.timestamp| < 10)
  let recent_damage := ((List.range' (c.i - 5) (c.i - (c.i - 5))).filter (0 < ·)).any
    fun j =>
      orZero (smoothed.getD (j - 1) dummy).p1_percent + 3 <
        orZero (smoothed.getD j dummy).p1_percent ∨
      orZero (smoothed.getD (j - 1) dummy).p2_percent + 3 <
        orZero (smoothed.getD j dummy).p2_percent
  if total_damage < 3 ∧ ¬ is_respawn_period ∧ ¬ recent_stock_loss ∧ ¬ recent_damage then
    match st.neutralStart with
    | none => { st with neutralStart := some c.timestamp, ns1 := c.p1_percent,
                        ns2 := c.p2_percent }
    | some _ => st
  else
    let st :=
      match st.neutralStart with
      | some ns =>
        if ns ≠ 0 ∧ 6 < c.timestamp - ns then
          if 2 < |c.p1_percent - st.ns1| ∨ 2 < |c.p2_percent - st.ns2| then
            { st with pat := { st.pat with long_neutral := st.pat.long_neutral ++
                [(⟨ns, c.timestamp, c.timestamp - ns⟩ : NeutralEvent)] } }
          else st
        else st
      | none => st
    { st with neutralStart := none, ns1 := 0, ns2 := 0 }

/-- The post-combo stages of one loop iteration: stock losses, kills,
game end, the end-of-stream fallbacks, edgeguard scoring, recovery,
momentum, neutral tracking, and the final previous-percent update.  The
source guards this whole block with `if game_over: continue`. -/
def stageB (raw smoothed : List Sample) (game_start_time : Int) (c : Ctx) (st : St) : St :=
  let death? := detect_stock_loss smoothed c.i p1stk p1pct st.conf1 st.max1 game_start_time
  let reset? := detect_death_by_percent_reset smoothed c.i p1pct st.max1 st.prev_p1
    c.p1_percent
  let oppDeath? := detect_stock_loss smoothed c.i p2stk p2pct st.conf2 st.max2
    game_start_time
  let oppReset? := detect_death_by_percent_reset smoothed c.i p2pct st.max2 st.prev_p2
    c.p2_percent
  let p1_death_pct := st.max1
  let p2_death_pct := st.max2
  let st := stockSection raw c death? reset? st
  let st := killSection raw c oppDeath? oppReset? st
  let st := gameEndSection c st
  let st := noneFallbackSection smoothed c st
  let st := edgeguardSection smoothed c (oppDeath?.isSome ∨ oppReset?.isSome)
    p2_death_pct st
  let st := recoverySection smoothed c (death?.isSome ∨ reset?.isSome) p1_death_pct st
  let st := momentumSection c st
  let st := neutralSection smoothed c st
  { st with prev_p1 := c.p1_percent, prev_p2 := c.p2_percent }

/-- One iteration of the main chronological pass of `find_patterns`. -/
def loopStep (raw smoothed : List Sample) (game_start_time : Int) (st : St) (i : Nat) : St :=
  let state := smoothed.getD i dummy
  if state.timestamp < game_start_time then st
  else
    let c := mkCtx st state i
    let st := trackMax raw c st
    let st := spikeSection smoothed c st
    let st := comboSection c st
    let st := { st with prevTs := c.timestamp }
    if st.gameOver then st
    else stageB raw smoothed game_start_time c st

/-- The whole main pass: smoothing, start resolution, then the fold of
`loopStep` over all sample indices. -/
def runLoop (game_states : List Sample) : St :=
  let smoothed := smooth_game_states game_states
  let game_start? := resolveStart smoothed
  let game_start_time := game_start?.getD 0
  (List.range smoothed.length).foldl (loopStep game_states smoothed game_start_time)
    (initSt game_start?)

/-! ## Deduplicator (`_deduplicate_events`) -/

/-- One step of the `_deduplicate_events` fold: a final-stock event
(`key event = 0`) is always kept (and advances the last kept timestamp
when beyond it); any other event is kept only when its timestamp exceeds
the last kept timestamp by more than the window. -/
def dedupStep {α : Type} (ts : α → Int) (key : α → Int) (time_window : Int)
    (acc : List α × Int) (event : α) : List α × Int :=
  let t := ts event
  if key event = 0 then
    (acc.1 ++ [event], if acc.2 < t then t else acc.2)
  else if time_window < t - acc.2 then (acc.1 ++ [event], t)
  else acc

/-- The greedy keep-first fold of `_deduplicate_events` over the
time-sorted event list. -/
def dedupFold {α : Type} (ts : α → Int) (key : α → Int) (time_window : Int)
    (sorted_events : List α) : List α × Int :=
  sorted_events.foldl (dedupStep ts key time_window) ([], -999)

/-- `_deduplicate_events`: sort by timestamp, then the greedy fold. -/
def deduplicate_events {α : Type} (ts : α → Int) (key : α → Int) (time_window : Int)
    (events : List α) : List α :=
  if events.isEmpty then events
  else (dedupFold ts key time_window
    (events.insertionSort fun a b => ts a ≤ ts b)).1

/-! ## `find_patterns` -/

/-- `find_patterns`: the engine as a pure function of the sample list. -/
def find_patterns (game_states : List Sample) : Patterns :=
  if game_states.length < 2 then emptyPatterns
  else
    let final := runLoop game_states
    { final.pat with
      stock_losses := deduplicate_events (·.timestamp) (·.stocks_remaining) 5
        final.pat.stock_losses
      kills := deduplicate_events (·.timestamp) (·.opponent_stocks_remaining) 5
        final.pat.kills
      p1_true_max_percent := final.gmax1
      p2_true_max_percent := final.gmax2 }

/-! ## Auxiliary definitions used by the claim statements -/

/-- The timestamp of the sample at an index. -/
def tsOf (sm : List Sample) (j : Nat) : Int := (sm.getD j dummy).timestamp

/-- The stock-side fields of the loop state: the two event lists, the two
confirmed stock counters and the game-over flag. -/
def stockView (st : St) : List StockLossEvent × List KillEvent × Int × Int × Bool :=
  (st.pat.stock_losses, st.pat.kills, st.conf1, st.conf2, st.gameOver)

/-- A per-event-list invariant of the main pass: the recorded values
(`stocks_remaining` / `opponent_stocks_remaining`) are strictly
decreasing along the list while the timestamps are non-decreasing, every
event's timestamp is the timestamp of an already-processed sample, and —
until the game-over flag is raised — the confirmed stock counter is at
least 1 and bounds every recorded value from below. -/
def evInv {α : Type} (val ts : α → Int) (sm : List Sample) (n : Nat) (l : List α)
    (conf : Int) (go : Bool) : Prop :=
  List.Pairwise (fun a b => val b < val a ∧ ts a ≤ ts b) l ∧
  (∀ e ∈ l, ∃ j, j < n ∧ j < sm.length ∧ ts e = tsOf sm j) ∧
  (go = false → 1 ≤ conf ∧ ∀ e ∈ l, conf ≤ val e)

/-- The `stocks_remaining` field of a stock loss. -/
def slVal (e : StockLossEvent) : Int := e.stocks_remaining

/-- The timestamp of a stock loss. -/
def slTs (e : StockLossEvent) : Int := e.timestamp

/-- The `opponent_stocks_remaining` field of a kill. -/
def kVal (e : KillEvent) : Int := e.opponent_stocks_remaining

/-- The timestamp of a kill. -/
def kTs (e : KillEvent) : Int := e.timestamp

/-- The raw-window property of an emitted stock loss: unless it is the
synthesized end-of-stream game-ender, whenever the 60-sample raw
lookback window before the event's timestamp holds a positive percent
reading, the emitted `percent` equals that raw maximum. -/
def rawWindowP1 (gs : List Sample) (e : StockLossEvent) : Prop :=
  e.is_game_ender = false →
  0 < get_raw_max_before gs p1pct (tsToRawIdx gs e.timestamp 0) 60 →
  e.percent = get_raw_max_before gs p1pct (tsToRawIdx gs e.timestamp 0) 60

/-- The mirrored raw-window property of an emitted kill. -/
def rawWindowP2 (gs : List Sample) (e : KillEvent) : Prop :=
  e.is_game_winner = false →
  0 < get_raw_max_before gs p2pct (tsToRawIdx gs e.timestamp 0) 60 →
  e.opponent_percent = get_raw_max_before gs p2pct (tsToRawIdx gs e.timestamp 0) 60

/-- The spec's reading of the clean-start scan: the first index `s`
opening a run of 3 consecutive smoothed samples that all read
percent ≤ 5 and stocks = 3 for both players; the start time is the
timestamp of that first sample. -/
def specCleanStart (sm : List Sample) : Option Int :=
  ((List.range (sm.length - 2)).find? fun s =>
    isStartFrame (sm.getD s dummy) && isStartFrame (sm.getD (s + 1) dummy) &&
      isStartFrame (sm.getD (s + 2) dummy)).map
    fun s => (sm.getD s dummy).timestamp

/-- The flush condition the source actually implements for an open combo
started at `cs`: (c) the player takes damage (`> 5`) in the sample —
with or without dealing damage; (a) a damage-dealing sample (`> 8` after
the 60-cap) more than 5 seconds after the combo START; or (b) a sample
with no damage either way more than 3 seconds after the combo START
(not after 3 seconds of inactivity). -/
def comboFlushCondition (c : Ctx) (cs : Int) : Prop :=
  5 < c.p1_damage_taken ∨
  (8 < min c.p2_damage_taken 60 ∧ ¬ 5 < c.p1_damage_taken ∧ 5 < c.timestamp - cs) ∨
  (¬ 8 < min c.p2_damage_taken 60 ∧ ¬ 5 < c.p1_damage_taken ∧ 3 < c.timestamp - cs)

/-- The 4-point score of the kill direction as the source computes it:
+1 for kill percent in [50, 145], +1 if the damage dealt over the 15
preceding samples is < 30, +1 if the damage taken over the 10 preceding
samples is ≤ 15, +1 bonus if that damage taken is < 5. -/
def killEdgeguardScore (smoothed : List Sample) (i : Nat) (kill_pct : Int) : Nat :=
  (if 50 ≤ kill_pct ∧ kill_pct ≤ 145 then 1 else 0) +
  (if sumDeltas smoothed p2pct (i - 15) i < 30 then 1 else 0) +
  (if sumDeltas smoothed p1pct (i - 10) i ≤ 15 then 1 else 0) +
  (if sumDeltas smoothed p1pct (i - 10) i < 5 then 1 else 0)

/-- The mirrored (player-was-edgeguarded) score as the source computes
it: +1 for death percent in [50, 145], +1 if the opponent's damage taken
over the 10 preceding samples is STRICTLY < 15, +1 if the player's
damage taken over the 10 (not 15) preceding samples is < 30, +1 bonus if
the opponent's damage taken is < 5. -/
def mirroredEdgeguardScore (smoothed : List Sample) (i : Nat) (death_pct : Int) : Nat :=
  (if 50 ≤ death_pct ∧ death_pct ≤ 145 then 1 else 0) +
  (if sumDeltas smoothed p2pct (i - 10) i < 15 then 1 else 0) +
  (if sumDeltas smoothed p1pct (i - 10) i < 30 then 1 else 0) +
  (if sumDeltas smoothed p2pct (i - 10) i < 5 then 1 else 0)

/-! ## Concrete inputs used by the claim theorems

Each input is a full telemetry stream; the engine's behaviour on each was
traced by hand against the Python source. -/

/-- A clean 14-sample match where four combo hits land right at the end of
the stream, leaving the combo accumulator open when the samples run out. -/
def comboTrailInput : List Sample :=
  ([(0, 0), (1, 0), (2, 0), (3, 0), (4, 0), (5, 0), (6, 0), (7, 0), (8, 0), (9, 0),
    (10, 12), (11, 24), (12, 36), (13, 48)] :
    List (Int × Int)).map fun p => ⟨p.1, some 0, some p.2, some 3, some 3⟩

/-- A 23-sample match: four combo hits at t = 10..13, a quiet sample at
t = 14 (only 1 s after the last hit, 4 s after the combo start), one more
hit at t = 15, then quiet.  The engine flushes the combo at the quiet
t = 14 sample because more than 3 s passed since the combo START. -/
def comboFlushInput : List Sample :=
  ([(0, 0), (1, 0), (2, 0), (3, 0), (4, 0), (5, 0), (6, 0), (7, 0), (8, 0), (9, 0),
    (10, 12), (11, 24), (12, 36), (13, 48), (14, 48), (15, 60),
    (16, 60), (17, 60), (18, 60), (19, 60), (20, 60), (21, 60), (22, 60)] :
    List (Int × Int)).map fun p => ⟨p.1, some 0, some p.2, some 3, some 3⟩

/-- A 74-sample match: p1's percent reads 55 at samples 3..5, then the
percent OCR goes dark for 60+ samples; the stock OCR drops 3 → 2 at
sample 66 and a percent reading of 5 returns at 69..71.  The confirmed
stock loss at sample 66 has an entirely unreadable (all-`None`) raw
lookback window. -/
def rawPeakInput : List Sample := (List.range 74).map fun (i : Nat) =>
  ⟨(i : Int),
   if i ≤ 2 then some 0 else if i ≤ 5 then some 55
     else if 69 ≤ i ∧ i ≤ 71 then some 5 else none,
   some 0,
   if i ≤ 65 then some 3 else some 2,
   some 3⟩

/-- The smoothed form of `rawPeakInput` (checked by `decide` below). -/
def rawPeakSmoothed : List Sample := (List.range 74).map fun (i : Nat) =>
  ⟨(i : Int),
   if i ≤ 2 then some 0 else if i ≤ 7 then some 55
     else if 67 ≤ i ∧ i ≤ 73 then some 5 else none,
   some 0,
   if i ≤ 65 then some 3 else some 2,
   some 3⟩

/-- Checkpoint of the `rawPeakInput` main pass after samples 0..24. -/
def rawPeakMid : St :=
  ⟨55, 0, 3, 3, false, none, 0, 0, none, 0, 0, 0, 0, 55, 0, 55, 0, 24,
    { emptyPatterns with
      damage_spikes := [⟨3, 55, 0, 55⟩]
      momentum_swings := [⟨3, Momentum.disadvantage, 0, 55⟩]
      game_start := some 0 }⟩

/-- Checkpoint of the `rawPeakInput` main pass after samples 0..49. -/
def rawPeakMid2 : St := { rawPeakMid with prevTs := 49 }

/-- A 22-sample match where p1 dies by percent reset (80 → 5 at
sample 16) while p2 took exactly 15 damage in the 10 preceding samples. -/
def mirrorEdgeInput : List Sample := (List.range 22).map fun (i : Nat) =>
  ⟨(i : Int),
   if i ≤ 4 then some 0 else if i ≤ 15 then some 80 else some 5,
   if i ≤ 9 then some 0 else some 15,
   some 3, some 3⟩

/-- An 8-sample stream whose only readable field is a percent at t = 6;
no stock value is ever read. -/
def noStocksInput : List Sample := (List.range 8).map fun (i : Nat) =>
  ⟨(i : Int), if i = 6 then some 50 else none, none, none, none⟩

/-- A 12-sample stream for calling `detect_stock_loss` directly at
index 5 with `confirmed_stocks = 2`: the stock reads `≥ 2` at samples 4
and 2 but `1` at sample 3 (so 2 of the 3 preceding samples read high,
but only 1 of the 2 the source actually checks). -/
def twoPrevInput : List Sample := (List.range 12).map fun (i : Nat) =>
  ⟨(i : Int), if i = 6 then some 5 else none, none,
   some (if i = 3 ∨ (5 ≤ i) then 1 else 2), none⟩

/-- As `twoPrevInput` but with both immediately-preceding samples reading
`2`, so the detection succeeds. -/
def twoPrevOkInput : List Sample := (List.range 12).map fun (i : Nat) =>
  ⟨(i : Int), if i = 6 then some 5 else none, none,
   some (if 5 ≤ i then 1 else 2), none⟩

/-- A 16-sample stream whose timestamps are NOT sorted: the first death
(2 stocks left) is recorded at t = 30 but the second death (1 stock
left) at t = 8, so the deduplication re-sort puts the 1-stock loss
before the 2-stock loss. -/
def c1Input : List Sample :=
  [⟨0,  some 0,  some 0, some 3, some 3⟩,
   ⟨1,  some 0,  some 0, some 3, some 3⟩,
   ⟨2,  some 0,  some 0, some 3, some 3⟩,
   ⟨25, some 50, some 0, some 3, some 3⟩,
   ⟨26, some 55, some 0, some 3, some 3⟩,
   ⟨30, some 55, some 0, some 2, some 3⟩,
   ⟨3,  some 0,  some 0, some 2, some 3⟩,
   ⟨4,  some 0,  some 0, some 2, some 3⟩,
   ⟨5,  some 0,  some 0, some 2, some 3⟩,
   ⟨6,  some 40, some 0, some 2, some 3⟩,
   ⟨7,  some 45, some 0, some 2, some 3⟩,
   ⟨8,  some 45, some 0, some 1, some 3⟩,
   ⟨9,  some 0,  some 0, some 1, some 3⟩,
   ⟨10, some 0,  some 0, some 1, some 3⟩,
   ⟨11, some 0,  some 0, some 1, some 3⟩,
   ⟨12, some 0,  some 0, some 1, some 3⟩]

/-- The final state of the `rawPeakInput` main pass (checked below). -/
def rawPeakFinal : St :=
  ⟨5, 0, 2, 3, false, none, 0, 0, none, 0, 0, 0, 0, 5, 0, 55, 0, 73,
    { emptyPatterns with
      damage_spikes := [⟨3, 55, 0, 55⟩]
      stock_losses := [⟨66, 55, 2, false⟩]
      got_edgeguarded := [⟨66, 55, 0, 0, 4⟩]
      recovery_moments := [⟨66, 55, 2⟩]
      momentum_swings := [⟨3, Momentum.disadvantage, 0, 55⟩]
      game_start := some 0 }⟩

/-! ## Infrastructure lemmas -/

set_option maxRecDepth 200000
set_option maxHeartbeats 1600000

/-- Unfold `runLoop` into its fold (definitional). -/
theorem runLoop_as_fold (gs : List Sample) :
    runLoop gs = (List.range (smooth_game_states gs).length).foldl
      (loopStep gs (smooth_game_states gs) ((resolveStart (smooth_game_states gs)).getD 0))
      (initSt (resolveStart (smooth_game_states gs))) := rfl

/-- Unfold `find_patterns` in terms of `runLoop` for inputs of length ≥ 2. -/
theorem find_patterns_of_runLoop (gs : List Sample) (h : ¬ gs.length < 2) :
    find_patterns gs =
      { (runLoop gs).pat with
        stock_losses := deduplicate_events (·.timestamp) (·.stocks_remaining) 5
          (runLoop gs).pat.stock_losses
        kills := deduplicate_events (·.timestamp) (·.opponent_stocks_remaining) 5
          (runLoop gs).pat.kills
        p1_true_max_percent := (runLoop gs).gmax1
        p2_true_max_percent := (runLoop gs).gmax2 } := by
  unfold find_patterns
  rw [if_neg h]

/-- Split a fold over `range' s (k + m)` at position `s + m` (used to
evaluate long concrete folds in kernel-sized chunks). -/
theorem foldl_range'_chunk {β : Type} (f : β → Nat → β) (st : β) (s m k : Nat) :
    (List.range' s (k + m)).foldl f st =
      (List.range' (s + m) k).foldl f ((List.range' s m).foldl f st) := by
  have h := List.range'_append s m k 1
  rw [one_mul] at h
  rw [← h, List.foldl_append]

/-- Fold invariant over `List.range n`, indexed by the position. -/
theorem foldl_range_invariant {β : Type} (P : Nat → β → Prop) (f : β → Nat → β)
    (n : Nat) (st : β) (h0 : P 0 st)
    (hstep : ∀ b i, i < n → P i b → P (i + 1) (f b i)) :
    P n ((List.range n).foldl f st) := by
  induction n with
  | zero => simpa using h0
  | succ m ih =>
    rw [List.range_succ, List.foldl_append]
    exact hstep _ m (Nat.lt_succ_self m)
      (ih (fun b i hi hp => hstep b i (Nat.lt_succ_of_lt hi) hp))

/-- Plain fold invariant (no index needed). -/
theorem foldl_invariant {β ι : Type} (P : β → Prop) (f : β → ι → β) (l : List ι)
    (st : β) (h0 : P st) (hstep : ∀ b i, P b → P (f b i)) : P (l.foldl f st) := by
  induction l generalizing st with
  | nil => exact h0
  | cons a l ih => exact ih (f st a) (hstep st a h0)

/-- The `rawPeakInput` main pass, evaluated in three kernel-sized chunks. -/
theorem rawPeak_runLoop : runLoop rawPeakInput = rawPeakFinal := by
  have hs : smooth_game_states rawPeakInput = rawPeakSmoothed := by decide
  have hr : resolveStart rawPeakSmoothed = some 0 := by decide
  have hl : rawPeakSmoothed.length = 74 := by decide
  rw [runLoop_as_fold, hs, hr, hl]
  show (List.range 74).foldl (loopStep rawPeakInput rawPeakSmoothed 0) (initSt (some 0)) = _
  rw [List.range_eq_range',
    show (74 : Nat) = 24 + 50 from rfl, foldl_range'_chunk,
    show (50 : Nat) = 25 + 25 from rfl, foldl_range'_chunk]
  have h1 : (List.range' 0 25).foldl (loopStep rawPeakInput rawPeakSmoothed 0)
      (initSt (some 0)) = rawPeakMid := by decide
  have h2 : (List.range' (0 + 25) 25).foldl (loopStep rawPeakInput rawPeakSmoothed 0)
      rawPeakMid = rawPeakMid2 := by decide
  have h3 : (List.range' (0 + 50) 24).foldl (loopStep rawPeakInput rawPeakSmoothed 0)
      rawPeakMid2 = rawPeakFinal := by decide
  rw [h1, h2]
  exact h3

/-- C4 (counterexample): on `rawPeakInput` the engine emits the confirmed
stock loss `{timestamp 66, percent 55, stocks_remaining 2}`, but the raw
samples hold no percent reading at all (neither positive nor zero) from
sample 6 through sample 66, so the maximum raw percent in the 60-sample
lookback window ending at the event is 0, not 55: the emitted
`percent_at_death` is the running `max_recent_percent`, which was fed by
the smoothed/carried series, contradicting the claim that the value always
equals the raw-window maximum and is never taken from the smoothed data. -/
theorem c4_counterexample :
    (find_patterns rawPeakInput).stock_losses = [⟨66, 55, 2, false⟩] ∧
    get_raw_max_before rawPeakInput p1pct 66 60 = 0 ∧
    tsToRawIdx rawPeakInput 66 0 = 66 ∧
    (∀ j : Nat, 6 ≤ j → j ≤ 66 → p1pct (rawPeakInput.getD j dummy) = none) ∧
    (55 : Int) ≠ 0 := by
  refine ⟨?_, by decide, by decide, by decide, by decide⟩
  rw [find_patterns_of_runLoop rawPeakInput (by decide), rawPeak_runLoop]
  decide

/-- C5: the engine is a deterministic pure function of the input sample
list — two runs on equal inputs return equal `MatchTimeline`s.  (In this
embedding the engine is a Lean function, which is faithful because the
Python holds no module-level mutable state: every accumulator of
`find_patterns` is a local created fresh per call, and the input list is
only read, never written.) -/
theorem c5_deterministic (gs₁ gs₂ : List Sample) (h : gs₁ = gs₂) :
    find_patterns gs₁ = find_patterns gs₂ := by rw [h]

/-- C5 witness: the determinism theorem applied at a concrete input. -/
theorem c5_witness :
    find_patterns comboTrailInput = find_patterns comboTrailInput :=
  c5_deterministic comboTrailInput comboTrailInput rfl

/-- C6 (counterexample): `detect_stock_loss` on `twoPrevInput` at sample 5
with `confirmed_stocks = 2` rejects the loss although the stock value read
`≥ 2` in 2 of the 3 samples immediately preceding (samples 4 and 2) and
every other validation holds: the stock dropped (reads 1 at sample 5),
`max_recent_percent = 100 ∈ [35, 180]`, the lower stock persists in 5 of
the next 5 samples, and the percent resets below 15 at sample 6.  The
source loop `range(1, min(3, current_idx + 1))` visits only `j = 1, 2`,
i.e. the 2 immediately preceding samples, and requires both. -/
theorem c6_counterexample :
    detect_stock_loss twoPrevInput 5 p1stk p1pct 2 100 0 = none ∧
    ((List.range' 1 3).filter fun j =>
      match p1stk (twoPrevInput.getD (5 - j) dummy) with
      | some ps => decide ((2 : Int) ≤ ps)
      | none => false).length = 2 ∧
    p1stk (twoPrevInput.getD 5 dummy) = some 1 ∧ (1 : Int) < 2 ∧
    ((35 : Int) ≤ 100 ∧ (100 : Int) ≤ 180) ∧
    ((List.range' 1 5).filter fun j =>
      match p1stk (twoPrevInput.getD (5 + j) dummy) with
      | some fs => decide (fs ≤ (1 : Int))
      | none => false).length = 5 ∧
    ((List.range' 1 4).any fun j =>
      match p1pct (twoPrevInput.getD (5 + j) dummy) with
      | some fp => decide (fp < (15 : Int))
      | none => false) = true := by decide

/-- A stock loss is never confirmed when fewer than 2 of the checked
preceding samples read at or above the confirmed count. -/
theorem detect_none_of_prev_low (gs : List Sample) (i : Nat)
    (stk pct : Sample → Option Int) (conf maxr gst : Int)
    (hc : prev_higher_count gs i stk conf < 2) :
    detect_stock_loss gs i stk pct conf maxr gst = none := by
  unfold detect_stock_loss
  split
  · rfl
  · dsimp only
    split
    · rfl
    · split_ifs <;> rfl

/-- C6 (amended): a stock-count-driven stock loss at sample `i` is
confirmed only if the stock value was `≥ confirmed_stocks` in BOTH of the
2 samples immediately preceding `i`; conversely (for `i ≥ 3`, the only
indices the detector accepts) this particular validation passes exactly
when both of those 2 preceding samples read `≥ confirmed_stocks`. -/
theorem c6_two_frame_validation :
    (∀ (gs : List Sample) (i : Nat) (stk pct : Sample → Option Int)
        (conf maxr gst v : Int),
        detect_stock_loss gs i stk pct conf maxr gst = some v →
        2 ≤ prev_higher_count gs i stk conf) ∧
    (∀ (gs : List Sample) (i : Nat) (stk : Sample → Option Int) (conf : Int),
        3 ≤ i →
        (2 ≤ prev_higher_count gs i stk conf ↔
          ((∃ v, stk (gs.getD (i - 1) dummy) = some v ∧ conf ≤ v) ∧
           (∃ v, stk (gs.getD (i - 2) dummy) = some v ∧ conf ≤ v)))) := by
  constructor
  · intro gs i stk pct conf maxr gst v h
    by_contra hc
    rw [detect_none_of_prev_low gs i stk pct conf maxr gst (by omega)] at h
    exact Option.noConfusion h
  · intro gs i stk conf h3
    have hm : min 3 (i + 1) - 1 = 2 := by omega
    have key : ∀ (o : Option Int),
        ((match o with | some ps => decide (conf ≤ ps) | none => false) = true) ↔
          ∃ v, o = some v ∧ conf ≤ v := by
      intro o
      cases o <;> simp
    have two_le : ∀ (p : Nat → Bool),
        2 ≤ (List.filter p [1, 2]).length ↔ (p 1 = true ∧ p 2 = true) := by
      intro p
      cases hp1 : p 1 <;> cases hp2 : p 2 <;> simp [List.filter, hp1, hp2]
    unfold prev_higher_count
    rw [hm, show List.range' 1 2 = [1, 2] from rfl, two_le]
    rw [key, key]

/-- C6 witness: the amended validation at work on `twoPrevOkInput`, where
both samples immediately preceding index 5 read 2 stocks and the
detection consequently goes through (both directions applied). -/
theorem c6_witness :
    2 ≤ prev_higher_count twoPrevOkInput 5 p1stk 2 ∧
    detect_stock_loss twoPrevOkInput 5 p1stk p1pct 2 100 0 = some 1 :=
  ⟨c6_two_frame_validation.1 twoPrevOkInput 5 p1stk p1pct 2 100 0 1 (by decide),
   by decide⟩

/-- C7 (counterexample): on `noStocksInput` no clean-start run exists and
no stock field is ever non-null, but the (smoothed) sample at index 5 has
timestamp ≥ 5 and a non-null percent, so under the claim the fallback
start would resolve to it; the engine instead leaves `game_start`
unresolved (`None`), because its fallback also demands a non-null stock
value. -/
theorem c7_counterexample :
    (find_patterns noStocksInput).game_start = none ∧
    2 ≤ noStocksInput.length ∧
    5 ≤ ((smooth_game_states noStocksInput).getD 5 dummy).timestamp ∧
    ((smooth_game_states noStocksInput).getD 5 dummy).p1_percent = some 50 := by
  exact ⟨by decide, by decide, by decide, by decide⟩

/-- C9 (counterexample): on `mirrorEdgeInput` the engine confirms p1's
death at sample 16 with death percent 80 ∈ [50, 145]; the opponent's
damage taken over the 10 preceding samples is exactly 15 and p1's damage
taken there is 0 < 30, so the claim's mirrored 4-point score is at least
3 (kill percent in range, killer's damage dealt < 30, killer's damage
taken ≤ 15) and an event should be emitted — but `got_edgeguarded` stays
empty, because the mirrored clean-kill test in the source is strict
(`< 15`), leaving the code score at 2. -/
theorem c9_counterexample :
    (find_patterns mirrorEdgeInput).got_edgeguarded = [] ∧
    (find_patterns mirrorEdgeInput).stock_losses = [⟨16, 80, 2, false⟩] ∧
    sumDeltas (smooth_game_states mirrorEdgeInput) p2pct 6 16 = 15 ∧
    sumDeltas (smooth_game_states mirrorEdgeInput) p1pct 6 16 = 0 ∧
    ((50 : Int) ≤ 80 ∧ (80 : Int) ≤ 145) ∧ (15 : Int) ≤ 15 ∧ (0 : Int) < 30 := by
  exact ⟨by decide, by decide, by decide, by decide, by decide, by decide, by decide⟩

/-- C10: a combo accumulator still open when the sample stream ends is
silently discarded: the returned `combos` list is exactly the list of
combos flushed during the pass (first conjunct, for every input), and on
`comboTrailInput` the pass ends with an open accumulator holding 3 hits
and 36 > 25 damage started at t = 10, yet the returned timeline has no
combo at all. -/
theorem c10_trailing_combo_discarded :
    (∀ gs : List Sample, (find_patterns gs).combos =
      if gs.length < 2 then [] else (runLoop gs).pat.combos) ∧
    (runLoop comboTrailInput).comboStart = some 10 ∧
    (runLoop comboTrailInput).comboHits = 3 ∧
    (runLoop comboTrailInput).comboDamage = 36 ∧
    (25 : Int) < 36 ∧
    (find_patterns comboTrailInput).combos = [] := by
  refine ⟨fun gs => ?_, by decide, by decide, by decide, by decide, by decide⟩
  unfold find_patterns
  split <;> rfl

/-! ## C8: the combo flush discipline -/

/-- Appending one element never returns the same list. -/
theorem append_one_ne (l : List ComboEvent) (e : ComboEvent) : l ++ [e] ≠ l := by
  intro h
  have h' := congrArg List.length h
  simp at h'

/-- C8 (counterexample): on `comboFlushInput` a combo starts at t = 10 and
is emitted closing at t = 13 with 4 hits, i.e. it was flushed at the quiet
t = 14 sample.  At that point only 4 ≤ 5 seconds had elapsed since the
combo start, the player had taken no damage anywhere in the stream, and
damage had landed at t = 13, only 1 second earlier — and another hit lands
at t = 15 — so none of the claimed flush triggers (more than 5 s elapsed,
more than 3 s of total inactivity, or taking damage) had occurred: the
source's rule (b) fires on time since combo START, not inactivity. -/
theorem c8_counterexample :
    (find_patterns comboFlushInput).combos = [⟨10, 13, 48, 0, 48, 4⟩] ∧
    ((14 : Int) - 10 ≤ 5) ∧ ((14 : Int) - 13 ≤ 3) ∧
    (∀ j : Nat, j < comboFlushInput.length →
      p1pct (comboFlushInput.getD j dummy) = some 0) ∧
    (orZero (p2pct (comboFlushInput.getD 13 dummy)) -
      orZero (p2pct (comboFlushInput.getD 12 dummy)) = 12) ∧
    (orZero (p2pct (comboFlushInput.getD 15 dummy)) -
      orZero (p2pct (comboFlushInput.getD 14 dummy)) = 12) ∧
    ((comboFlushInput.getD 15 dummy).timestamp - 10 ≤ 5) := by
  exact ⟨by decide, by decide, by decide, by decide, by decide, by decide, by decide⟩

/-- C8 (amended): an open combo accumulator (with a nonzero start time —
a start at timestamp 0 never flushes, through the source's truthiness
guard) is flushed, and emitted exactly when it also clears the
`hits ≥ 3 ∧ damage > 25` bar, precisely under `comboFlushCondition`:
taking damage always flushes; a dealing sample flushes after more than
5 s since the combo start; a quiet sample flushes after more than 3 s
since the combo start.  A combo still receiving hits is indeed never
flushed by the 3-second rule, but the 3-second rule measures from the
combo start, not from the last activity. -/
theorem c8_flush_characterization (c : Ctx) (st : St) (cs : Int)
    (hcs : st.comboStart = some cs) (hzero : cs ≠ 0) :
    (comboSection c st).pat.combos ≠ st.pat.combos ↔
      (comboFlushCondition c cs ∧ 3 ≤ st.comboHits ∧ 25 < st.comboDamage) := by
  unfold comboSection comboEmit comboReset comboFlushCondition
  rw [hcs]
  dsimp only
  split_ifs <;> simp_all [append_one_ne] <;> omega

/-- C8 witness: the characterization applied at the `comboFlushInput`
flush moment — the quiet sample at t = 14, 4 s after the combo start,
flushes the open 4-hit, 48-damage accumulator. -/
theorem c8_witness :
    (comboSection ⟨14, 14, 0, 48, 0, 0⟩
        ⟨0, 48, 3, 3, false, none, 0, 0, some 10, 48, 4, 0, 48, 0, 48, 0, 48, 13,
          { emptyPatterns with game_start := some 0 }⟩).pat.combos ≠
      ({ emptyPatterns with game_start := some 0 } : Patterns).combos :=
  (c8_flush_characterization ⟨14, 14, 0, 48, 0, 0⟩
      ⟨0, 48, 3, 3, false, none, 0, 0, some 10, 48, 4, 0, 48, 0, 48, 0, 48, 13,
        { emptyPatterns with game_start := some 0 }⟩ 10 rfl (by decide)).mpr
    (by exact ⟨Or.inr (Or.inr (by refine ⟨by decide, by decide, by decide⟩)),
      by decide, by decide⟩)

/-! ## C9: the edgeguard scoring, both directions -/

/-- C9 (amended): at a confirmed kill the engine appends an edgeguard
event exactly when `killEdgeguardScore ≥ 3`, high-confidence exactly when
`≥ 4`; at a confirmed death of the analyzed player it appends a
`got_edgeguarded` event exactly when `mirroredEdgeguardScore ≥ 3`.  The
kill-direction score sums the damage dealt over the 15 preceding samples
(`< 30`) and the player's damage taken over the 10 preceding samples
(`≤ 15`, bonus `< 5`); the mirrored score uses 10-sample windows for
both sums and its clean test is strict (`< 15`).  All windows count
samples, not seconds. -/
theorem c9_mirrored_scoring :
    (∀ (sm : List Sample) (c : Ctx) (fired : Bool) (kp : Int) (st : St),
      (edgeguardSection sm c fired kp st).pat.edgeguards =
        st.pat.edgeguards ++
          (if fired = true ∧ 3 ≤ killEdgeguardScore sm c.i kp then
            [⟨c.timestamp, kp, sumDeltas sm p1pct (c.i - 10) c.i,
              sumDeltas sm p2pct (c.i - 15) c.i,
              decide (4 ≤ killEdgeguardScore sm c.i kp), killEdgeguardScore sm c.i kp⟩]
          else [])) ∧
    (∀ (sm : List Sample) (c : Ctx) (fired : Bool) (dp : Int) (st : St),
      (recoverySection sm c fired dp st).pat.got_edgeguarded =
        st.pat.got_edgeguarded ++
          (if fired = true ∧ 3 ≤ mirroredEdgeguardScore sm c.i dp then
            [⟨c.timestamp, dp, sumDeltas sm p2pct (c.i - 10) c.i,
              sumDeltas sm p1pct (c.i - 10) c.i, mirroredEdgeguardScore sm c.i dp⟩]
          else [])) := by
  constructor
  · intro sm c fired kp st
    unfold edgeguardSection killEdgeguardScore
    dsimp only
    set s1 := sumDeltas sm p1pct (c.i - 10) c.i with hs1
    set s2 := sumDeltas sm p2pct (c.i - 15) c.i with hs2
    set score : Nat := (if 50 ≤ kp ∧ kp ≤ 145 then 1 else 0) +
      (if s2 < 30 then 1 else 0) + (if s1 ≤ 15 then 1 else 0) +
      (if s1 < 5 then 1 else 0) with hscore
    cases fired
    · simp
    · by_cases h3 : 3 ≤ score
      · simp [h3]
      · simp [h3]
  · intro sm c fired dp st
    unfold recoverySection mirroredEdgeguardScore
    dsimp only
    set s1 := sumDeltas sm p1pct (c.i - 10) c.i with hs1
    set s2 := sumDeltas sm p2pct (c.i - 10) c.i with hs2
    set score : Nat := (if 50 ≤ dp ∧ dp ≤ 145 then 1 else 0) +
      (if s2 < 15 then 1 else 0) + (if s1 < 30 then 1 else 0) +
      (if s2 < 5 then 1 else 0) with hscore
    cases fired
    · simp
    · by_cases h3 : 3 ≤ score
      · simp [h3]
      · simp [h3]

/-! ## C2: combo thresholds (invariant over the main pass) -/

theorem trackMax_pat (raw : List Sample) (c : Ctx) (st : St) :
    (trackMax raw c st).pat = st.pat := by
  unfold trackMax
  dsimp only
  split <;> rfl

theorem spikeSection_combos (sm : List Sample) (c : Ctx) (st : St) :
    (spikeSection sm c st).pat.combos = st.pat.combos := by
  unfold spikeSection
  dsimp only
  split_ifs <;> rfl

theorem comboSection_combos (c : Ctx) (st : St) :
    ∀ e ∈ (comboSection c st).pat.combos,
      e ∈ st.pat.combos ∨ (3 ≤ e.hits ∧ 25 < e.damage) := by
  unfold comboSection comboEmit comboReset
  cases hcs : st.comboStart <;> dsimp only <;> split_ifs <;> intro e he <;>
    first
      | exact Or.inl he
      | (rcases List.mem_append.mp he with h | h
         · exact Or.inl h
         · simp at h
           subst h
           dsimp only
           refine Or.inr ⟨by omega, ?_⟩
           simp only [lt_min_iff]
           constructor <;> omega)

theorem stockSection_death (raw : List Sample) (c : Ctx) (v : Int)
    (r : Option Int) (st : St) :
    stockSection raw c (some v) r st =
      { st with
        pat := { st.pat with stock_losses := st.pat.stock_losses ++
          [⟨c.timestamp,
            if 0 < get_raw_max_before raw p1pct (tsToRawIdx raw c.timestamp c.i) 60
            then get_raw_max_before raw p1pct (tsToRawIdx raw c.timestamp c.i) 60
            else st.max1, v, false⟩] }
        conf1 := v, max1 := 0, prev_p1 := 0,
        gameOver := if v = 0 then true else st.gameOver } := rfl

theorem stockSection_reset (raw : List Sample) (c : Ctx) (dp : Int) (st : St) :
    stockSection raw c none (some dp) st =
      { st with
        pat := { st.pat with stock_losses := st.pat.stock_losses ++
          [⟨c.timestamp,
            if 0 < get_raw_max_before raw p1pct (tsToRawIdx raw c.timestamp c.i) 60
            then get_raw_max_before raw p1pct (tsToRawIdx raw c.timestamp c.i) 60
            else dp, max 0 (st.conf1 - 1), false⟩] }
        conf1 := max 0 (st.conf1 - 1), max1 := 0, prev_p1 := 0,
        gameOver := if max 0 (st.conf1 - 1) = 0 then true else st.gameOver } := rfl

theorem stockSection_skip (raw : List Sample) (c : Ctx) (st : St) :
    stockSection raw c none none st = st := rfl

theorem stockSection_combos (raw : List Sample) (c : Ctx) (d r : Option Int) (st : St) :
    (stockSection raw c d r st).pat.combos = st.pat.combos := by
  rcases d with _ | v
  · rcases r with _ | w <;> rfl
  · rfl

theorem killSection_combos (raw : List Sample) (c : Ctx) (d r : Option Int) (st : St) :
    (killSection raw c d r st).pat.combos = st.pat.combos := by
  rcases d with _ | v
  · rcases r with _ | w <;> rfl
  · rfl

theorem gameEndSection_combos (c : Ctx) (st : St) :
    (gameEndSection c st).pat.combos = st.pat.combos := by
  unfold gameEndSection
  split <;> rfl

theorem noneFallbackSection_combos (sm : List Sample) (c : Ctx) (st : St) :
    (noneFallbackSection sm c st).pat.combos = st.pat.combos := by
  unfold noneFallbackSection
  dsimp only
  split_ifs <;> rfl

theorem edgeguardSection_combos (sm : List Sample) (c : Ctx) (f : Bool) (kp : Int)
    (st : St) : (edgeguardSection sm c f kp st).pat.combos = st.pat.combos := by
  unfold edgeguardSection
  dsimp only
  split_ifs <;> rfl

theorem recoverySection_combos (sm : List Sample) (c : Ctx) (f : Bool) (dp : Int)
    (st : St) : (recoverySection sm c f dp st).pat.combos = st.pat.combos := by
  unfold recoverySection
  dsimp only
  split_ifs <;> rfl

theorem momentumSection_combos (c : Ctx) (st : St) :
    (momentumSection c st).pat.combos = st.pat.combos := by
  unfold momentumSection
  dsimp only
  split_ifs <;> rfl

theorem neutralSection_combos (sm : List Sample) (c : Ctx) (st : St) :
    (neutralSection sm c st).pat.combos = st.pat.combos := by
  unfold neutralSection
  dsimp only
  split_ifs <;> cases hns : st.neutralStart <;> dsimp only <;> (try split_ifs) <;> rfl

theorem stageB_combos (raw sm : List Sample) (gst : Int) (c : Ctx) (st : St) :
    (stageB raw sm gst c st).pat.combos = st.pat.combos := by
  unfold stageB
  dsimp only
  rw [show ∀ (s : St) (a b : Int),
      ({ s with prev_p1 := a, prev_p2 := b } : St).pat.combos = s.pat.combos
      from fun _ _ _ => rfl]
  rw [neutralSection_combos, momentumSection_combos, recoverySection_combos,
    edgeguardSection_combos, noneFallbackSection_combos, gameEndSection_combos,
    killSection_combos, stockSection_combos]

theorem loopStep_combos (raw sm : List Sample) (gst : Int) (st : St) (i : Nat) :
    ∀ e ∈ (loopStep raw sm gst st i).pat.combos,
      e ∈ st.pat.combos ∨ (3 ≤ e.hits ∧ 25 < e.damage) := by
  unfold loopStep
  dsimp only
  split
  · intro e he
    exact Or.inl he
  · intro e he
    split at he
    · rw [show ∀ s : St, ({ s with prevTs := (sm.getD i dummy).timestamp } : St).pat.combos
          = s.pat.combos from fun _ => rfl] at he
      have h3 := comboSection_combos _ _ _ he
      rw [spikeSection_combos, trackMax_pat] at h3
      exact h3
    · rw [stageB_combos] at he
      rw [show ∀ s : St, ({ s with prevTs := (sm.getD i dummy).timestamp } : St).pat.combos
          = s.pat.combos from fun _ => rfl] at he
      have h3 := comboSection_combos _ _ _ he
      rw [spikeSection_combos, trackMax_pat] at h3
      exact h3

/-- The combos field of the result, in terms of the main pass. -/
theorem find_patterns_combos_eq (gs : List Sample) : (find_patterns gs).combos =
    if gs.length < 2 then [] else (runLoop gs).pat.combos := by
  unfold find_patterns
  split <;> rfl

/-- Every combo accumulated during the main pass clears the bar. -/
theorem runLoop_combos_valid (gs : List Sample) :
    ∀ e ∈ (runLoop gs).pat.combos, 3 ≤ e.hits ∧ 25 < e.damage := by
  rw [runLoop_as_fold]
  refine foldl_invariant
    (fun st : St => ∀ e ∈ st.pat.combos, 3 ≤ e.hits ∧ 25 < e.damage) _ _ _ ?_ ?_
  · intro e he
    simp [initSt, emptyPatterns] at he
  · intro b i hP e he
    rcases loopStep_combos _ _ _ _ _ e he with h | h
    · exact hP e h
    · exact h

/-- C2: every `ComboEvent` in the returned timeline has `hit_count ≥ 3`
and `damage > 25`; accumulated sequences below either threshold are
discarded and never emitted (every emission site is guarded by
`combo_hits >= 3 and combo_damage > 25`, and the emitted damage
`min(combo_damage, 100)` stays above 25). -/
theorem c2_combo_thresholds (gs : List Sample) (e : ComboEvent)
    (he : e ∈ (find_patterns gs).combos) : 3 ≤ e.hits ∧ 25 < e.damage := by
  rw [find_patterns_combos_eq] at he
  split at he
  · simp at he
  · exact runLoop_combos_valid gs e he

/-- C2 witness: the threshold theorem applied to the one combo of
`comboFlushInput`. -/
theorem c2_witness :
    3 ≤ (⟨10, 13, 48, 0, 48, 4⟩ : ComboEvent).hits ∧
    25 < (⟨10, 13, 48, 0, 48, 4⟩ : ComboEvent).damage :=
  c2_combo_thresholds comboFlushInput ⟨10, 13, 48, 0, 48, 4⟩ (by decide)

/-! ## Stock-side frame lemmas and detector bounds -/

theorem getD_mem_of_lt (gs : List Sample) (i : Nat) (hlen : i < gs.length) :
    gs.getD i dummy ∈ gs := by
  rw [List.getD_eq_getElem gs dummy hlen]
  exact List.getElem_mem hlen

theorem detect_stock_loss_lt (gs : List Sample) (i : Nat)
    (stk pct : Sample → Option Int) (conf maxr gst : Int) (v : Int)
    (h : detect_stock_loss gs i stk pct conf maxr gst = some v) : v < conf := by
  unfold detect_stock_loss at h
  split at h
  · exact Option.noConfusion h
  · dsimp only at h
    split at h
    · exact Option.noConfusion h
    · split_ifs at h <;>
        first
          | exact Option.noConfusion h
          | (injection h with hv; omega)

theorem foldl_mem_invariant {β ι : Type} (P : β → Prop) (f : β → ι → β)
    (l : List ι) (st : β) (h0 : P st)
    (hstep : ∀ b i, i ∈ l → P b → P (f b i)) : P (l.foldl f st) := by
  induction l generalizing st with
  | nil => exact h0
  | cons a t ih =>
    exact ih (f st a) (hstep st a (List.mem_cons_self a t) h0)
      (fun b i hi hp => hstep b i (List.mem_cons_of_mem a hi) hp)

theorem modeOf_mem (l : List Int) (hne : l ≠ []) : modeOf l ∈ l := by
  unfold modeOf
  refine foldl_mem_invariant (fun b => b ∈ l) _ l _ ?_ ?_
  · cases l with
    | nil => exact absurd rfl hne
    | cons a t => exact List.mem_cons_self a t
  · intro b i hi hb
    dsimp only
    split <;> assumption

theorem detect_stock_loss_nonneg (gs : List Sample) (i : Nat)
    (stk pct : Sample → Option Int) (conf maxr gst : Int) (v : Int)
    (hd : stk dummy = none)
    (hall : ∀ s ∈ gs, ∀ u, stk s = some u → 0 ≤ u)
    (h : detect_stock_loss gs i stk pct conf maxr gst = some v) : 0 ≤ v := by
  unfold detect_stock_loss at h
  split at h
  · exact Option.noConfusion h
  · dsimp only at h
    split at h
    · exact Option.noConfusion h
    · rename_i cs hcs
      have hcs0 : 0 ≤ cs := by
        by_cases hlen : i < gs.length
        · exact hall _ (getD_mem_of_lt gs i hlen) _ hcs
        · rw [List.getD_eq_default gs dummy (by omega), hd] at hcs
          exact Option.noConfusion hcs
      split_ifs at h <;>
        first
          | exact Option.noConfusion h
          | (injection h with hv; omega)

theorem smoothWindow_subset (gs : List Sample) (i : Nat) :
    ∀ s ∈ smoothWindow gs i, s ∈ gs := by
  intro s hs
  unfold smoothWindow at hs
  exact ((List.take_sublist _ _).trans (List.drop_sublist _ _)).subset hs

theorem smooth_stocks_nonneg_p1 (gs : List Sample)
    (hall : ∀ s ∈ gs, ∀ u, p1stk s = some u → 0 ≤ u) :
    ∀ s ∈ smooth_game_states gs, ∀ u, p1stk s = some u → 0 ≤ u := by
  unfold smooth_game_states
  split
  · exact hall
  · intro s hs u hu
    rw [List.mem_map] at hs
    obtain ⟨i, hi, rfl⟩ := hs
    have hwin : ∀ x ∈ (smoothWindow gs i).filterMap p1stk, 0 ≤ x := by
      intro x hx
      rw [List.mem_filterMap] at hx
      obtain ⟨t, hsw, hss⟩ := hx
      exact hall t (smoothWindow_subset gs i t hsw) x hss
    have hbase : ∀ w, p1stk (gs.getD i dummy) = some w → 0 ≤ w := by
      intro w hw
      by_cases hlen : i < gs.length
      · exact hall _ (getD_mem_of_lt gs i hlen) _ hw
      · rw [List.getD_eq_default gs dummy (by omega)] at hw
        exact absurd hw (by simp [p1stk, dummy])
    unfold smoothOne at hu
    simp only [p1stk] at hu hbase
    split at hu
    · exact hbase u hu
    · rename_i hemp
      injection hu with hv
      rw [← hv]
      split
      · exact le_refl 0
      · exact hwin _ (modeOf_mem _ (fun hnil => hemp (by simp [hnil])))


theorem trackMax_stockView (raw : List Sample) (c : Ctx) (st : St) :
    stockView (trackMax raw c st) = stockView st := by
  unfold trackMax stockView
  dsimp only
  split <;> rfl

theorem spikeSection_stockView (sm : List Sample) (c : Ctx) (st : St) :
    stockView (spikeSection sm c st) = stockView st := by
  unfold spikeSection stockView
  dsimp only
  split_ifs <;> rfl

theorem comboSection_stockView (c : Ctx) (st : St) :
    stockView (comboSection c st) = stockView st := by
  unfold comboSection comboEmit comboReset stockView
  cases hcs : st.comboStart <;> dsimp only <;> split_ifs <;> rfl

theorem gameEndSection_stockView (c : Ctx) (st : St) :
    stockView (gameEndSection c st) = stockView st := by
  unfold gameEndSection stockView
  split <;> rfl

theorem edgeguardSection_stockView (sm : List Sample) (c : Ctx) (f : Bool) (kp : Int)
    (st : St) : stockView (edgeguardSection sm c f kp st) = stockView st := by
  unfold edgeguardSection stockView
  dsimp only
  split_ifs <;> rfl

theorem recoverySection_stockView (sm : List Sample) (c : Ctx) (f : Bool) (dp : Int)
    (st : St) : stockView (recoverySection sm c f dp st) = stockView st := by
  unfold recoverySection stockView
  dsimp only
  split_ifs <;> rfl

theorem momentumSection_stockView (c : Ctx) (st : St) :
    stockView (momentumSection c st) = stockView st := by
  unfold momentumSection stockView
  dsimp only
  split_ifs <;> rfl

theorem neutralSection_stockView (sm : List Sample) (c : Ctx) (st : St) :
    stockView (neutralSection sm c st) = stockView st := by
  unfold neutralSection stockView
  dsimp only
  split_ifs <;> cases hns : st.neutralStart <;> dsimp only <;> (try split_ifs) <;> rfl

theorem stockView_parts {a b : St} (h : stockView a = stockView b) :
    a.pat.stock_losses = b.pat.stock_losses ∧ a.pat.kills = b.pat.kills ∧
    a.conf1 = b.conf1 ∧ a.conf2 = b.conf2 ∧ a.gameOver = b.gameOver := by
  simpa [stockView, Prod.ext_iff] using h

theorem noneFallbackSection_stock (sm : List Sample) (c : Ctx) (st : St) :
    (noneFallbackSection sm c st).pat.stock_losses = st.pat.stock_losses ∨
    (st.gameOver = false ∧ (noneFallbackSection sm c st).pat.stock_losses =
      st.pat.stock_losses ++ [⟨c.timestamp, st.prev_p1, 0, true⟩]) := by
  unfold noneFallbackSection
  dsimp only
  split_ifs <;>
    first
      | exact Or.inl rfl
      | exact Or.inr ⟨by simp_all, rfl⟩

theorem noneFallbackSection_kills (sm : List Sample) (c : Ctx) (st : St) :
    (noneFallbackSection sm c st).pat.kills = st.pat.kills ∨
    (st.gameOver = false ∧ (noneFallbackSection sm c st).pat.kills =
      st.pat.kills ++ [⟨c.timestamp, st.prev_p2, 0, true⟩]) := by
  unfold noneFallbackSection
  dsimp only
  split_ifs <;>
    first
      | exact Or.inl rfl
      | exact Or.inr ⟨by simp_all, rfl⟩

theorem noneFallbackSection_conf (sm : List Sample) (c : Ctx) (st : St) :
    (noneFallbackSection sm c st).conf1 = st.conf1 ∧
    (noneFallbackSection sm c st).conf2 = st.conf2 := by
  unfold noneFallbackSection
  dsimp only
  split_ifs <;> exact ⟨rfl, rfl⟩

theorem noneFallbackSection_gameOver_false (sm : List Sample) (c : Ctx) (st : St)
    (h : (noneFallbackSection sm c st).gameOver = false) :
    noneFallbackSection sm c st = st ∧ st.gameOver = false := by
  unfold noneFallbackSection at h ⊢
  dsimp only at h ⊢
  split_ifs at h ⊢ <;> simp_all


theorem smooth_stocks_nonneg_p2 (gs : List Sample)
    (hall : ∀ s ∈ gs, ∀ u, p2stk s = some u → 0 ≤ u) :
    ∀ s ∈ smooth_game_states gs, ∀ u, p2stk s = some u → 0 ≤ u := by
  unfold smooth_game_states
  split
  · exact hall
  · intro s hs u hu
    rw [List.mem_map] at hs
    obtain ⟨i, hi, rfl⟩ := hs
    have hwin : ∀ x ∈ (smoothWindow gs i).filterMap p2stk, 0 ≤ x := by
      intro x hx
      rw [List.mem_filterMap] at hx
      obtain ⟨t, hsw, hss⟩ := hx
      exact hall t (smoothWindow_subset gs i t hsw) x hss
    have hbase : ∀ w, p2stk (gs.getD i dummy) = some w → 0 ≤ w := by
      intro w hw
      by_cases hlen : i < gs.length
      · exact hall _ (getD_mem_of_lt gs i hlen) _ hw
      · rw [List.getD_eq_default gs dummy (by omega)] at hw
        exact absurd hw (by simp [p2stk, dummy])
    unfold smoothOne at hu
    simp only [p2stk] at hu hbase
    split at hu
    · exact hbase u hu
    · rename_i hemp
      injection hu with hv
      rw [← hv]
      split
      · exact le_refl 0
      · exact hwin _ (modeOf_mem _ (fun hnil => hemp (by simp [hnil])))

theorem smooth_length (gs : List Sample) :
    (smooth_game_states gs).length = gs.length := by
  unfold smooth_game_states
  split
  · rfl
  · simp

theorem smoothOne_timestamp (gs : List Sample) (i : Nat) :
    (smoothOne gs i).timestamp = (gs.getD i dummy).timestamp := rfl

theorem smooth_timestamp (gs : List Sample) (i : Nat) :
    tsOf (smooth_game_states gs) i = tsOf gs i := by
  unfold tsOf smooth_game_states
  split
  · rfl
  · by_cases hlen : i < gs.length
    · rw [List.getD_eq_getElem _ dummy (by simpa using hlen)]
      rw [List.getElem_map, List.getElem_range]
      rfl
    · rw [List.getD_eq_default _ _ (by simpa using hlen),
        List.getD_eq_default _ _ (by omega)]

theorem sorted_tsOf (gs : List Sample)
    (hs : List.Pairwise (fun a b => a.timestamp ≤ b.timestamp) gs)
    (j k : Nat) (hjk : j ≤ k) (hk : k < gs.length) : tsOf gs j ≤ tsOf gs k := by
  rcases Nat.eq_or_lt_of_le hjk with rfl | hlt
  · exact le_refl _
  · have hj : j < gs.length := lt_trans hlt hk
    rw [tsOf, tsOf, List.getD_eq_getElem _ _ hj, List.getD_eq_getElem _ _ hk]
    have := List.pairwise_iff_get.mp hs ⟨j, hj⟩ ⟨k, hk⟩ hlt
    simpa using this

theorem dedupFold_go {α : Type} (ts : α → Int) (key : α → Int) (w : Int) :
    ∀ (l : List α) (acc : List α) (t : Int),
      ∃ s, (l.foldl (dedupStep ts key w) (acc, t)).1 = acc ++ s ∧ s.Sublist l := by
  intro l
  induction l with
  | nil => exact fun acc t => ⟨[], by simp, List.Sublist.refl []⟩
  | cons a l ih =>
    intro acc t
    rw [List.foldl_cons]
    rcases hstep : dedupStep ts key w (acc, t) a with ⟨acc', t'⟩
    unfold dedupStep at hstep
    dsimp only at hstep
    split_ifs at hstep <;>
      (injection hstep with h1 h2
       subst h1
       first
         | (obtain ⟨s, hs, hsub⟩ := ih (acc ++ [a]) t'
            exact ⟨a :: s, by simpa using hs, List.Sublist.cons₂ a hsub⟩)
         | (obtain ⟨s, hs, hsub⟩ := ih acc t'
            exact ⟨s, hs, List.Sublist.cons a hsub⟩))

theorem dedupFold_keeps_zero {α : Type} (ts : α → Int) (key : α → Int) (w : Int) :
    ∀ (l : List α) (acc : List α) (t : Int) (e : α), e ∈ l → key e = 0 →
      e ∈ (l.foldl (dedupStep ts key w) (acc, t)).1 := by
  intro l
  induction l with
  | nil => intro acc t e he; exact absurd he (List.not_mem_nil e)
  | cons a l ih =>
    intro acc t e he hk
    rw [List.foldl_cons]
    rcases List.mem_cons.mp he with rfl | hmem
    · rw [show dedupStep ts key w (acc, t) e =
          (acc ++ [e], if t < ts e then ts e else t) from by
            unfold dedupStep; simp [hk]]
      obtain ⟨s, hs, _⟩ := dedupFold_go ts key w l (acc ++ [e]) _
      rw [hs]
      simp
    · rcases hstep : dedupStep ts key w (acc, t) a with ⟨acc', t'⟩
      exact ih acc' t' e hmem hk

theorem killSection_death (raw : List Sample) (c : Ctx) (v : Int)
    (r : Option Int) (st : St) :
    killSection raw c (some v) r st =
      { st with
        pat := { st.pat with kills := st.pat.kills ++
          [⟨c.timestamp,
            if 0 < get_raw_max_before raw p2pct (tsToRawIdx raw c.timestamp c.i) 60
            then get_raw_max_before raw p2pct (tsToRawIdx raw c.timestamp c.i) 60
            else st.max2, v, false⟩] }
        conf2 := v, max2 := 0, prev_p2 := 0,
        gameOver := if v = 0 then true else st.gameOver } := rfl

theorem killSection_reset (raw : List Sample) (c : Ctx) (dp : Int) (st : St) :
    killSection raw c none (some dp) st =
      { st with
        pat := { st.pat with kills := st.pat.kills ++
          [⟨c.timestamp,
            if 0 < get_raw_max_before raw p2pct (tsToRawIdx raw c.timestamp c.i) 60
            then get_raw_max_before raw p2pct (tsToRawIdx raw c.timestamp c.i) 60
            else dp, max 0 (st.conf2 - 1), false⟩] }
        conf2 := max 0 (st.conf2 - 1), max2 := 0, prev_p2 := 0,
        gameOver := if max 0 (st.conf2 - 1) = 0 then true else st.gameOver } := rfl

theorem killSection_skip (raw : List Sample) (c : Ctx) (st : St) :
    killSection raw c none none st = st := rfl

theorem noneFallbackSection_skip (sm : List Sample) (c : Ctx) (st : St)
    (h : st.gameOver = true) : noneFallbackSection sm c st = st := by
  unfold noneFallbackSection
  simp [h]

theorem stageB_stockView (raw sm : List Sample) (gst : Int) (c : Ctx) (st : St) :
    stockView (stageB raw sm gst c st) =
      stockView (noneFallbackSection sm c (gameEndSection c
        (killSection raw c
          (detect_stock_loss sm c.i p2stk p2pct st.conf2 st.max2 gst)
          (detect_death_by_percent_reset sm c.i p2pct st.max2 st.prev_p2 c.p2_percent)
          (stockSection raw c
            (detect_stock_loss sm c.i p1stk p1pct st.conf1 st.max1 gst)
            (detect_death_by_percent_reset sm c.i p1pct st.max1 st.prev_p1 c.p1_percent)
            st)))) := by
  unfold stageB
  dsimp only
  rw [show ∀ (s : St) (a b : Int),
      stockView ({ s with prev_p1 := a, prev_p2 := b } : St) = stockView s
      from fun _ _ _ => rfl]
  rw [neutralSection_stockView, momentumSection_stockView, recoverySection_stockView,
    edgeguardSection_stockView]

theorem spikeSection_game_start (sm : List Sample) (c : Ctx) (st : St) :
    (spikeSection sm c st).pat.game_start = st.pat.game_start := by
  unfold spikeSection
  dsimp only
  split_ifs <;> rfl

theorem comboSection_game_start (c : Ctx) (st : St) :
    (comboSection c st).pat.game_start = st.pat.game_start := by
  unfold comboSection comboEmit comboReset
  cases hcs : st.comboStart <;> dsimp only <;> split_ifs <;> rfl

theorem stockSection_game_start (raw : List Sample) (c : Ctx) (d r : Option Int)
    (st : St) : (stockSection raw c d r st).pat.game_start = st.pat.game_start := by
  rcases d with _ | v
  · rcases r with _ | w <;> rfl
  · rfl

theorem killSection_game_start (raw : List Sample) (c : Ctx) (d r : Option Int)
    (st : St) : (killSection raw c d r st).pat.game_start = st.pat.game_start := by
  rcases d with _ | v
  · rcases r with _ | w <;> rfl
  · rfl

theorem gameEndSection_game_start (c : Ctx) (st : St) :
    (gameEndSection c st).pat.game_start = st.pat.game_start := by
  unfold gameEndSection
  split <;> rfl

theorem noneFallbackSection_game_start (sm : List Sample) (c : Ctx) (st : St) :
    (noneFallbackSection sm c st).pat.game_start = st.pat.game_start := by
  unfold noneFallbackSection
  dsimp only
  split_ifs <;> rfl

theorem edgeguardSection_game_start (sm : List Sample) (c : Ctx) (f : Bool) (kp : Int)
    (st : St) : (edgeguardSection sm c f kp st).pat.game_start = st.pat.game_start := by
  unfold edgeguardSection
  dsimp only
  split_ifs <;> rfl

theorem recoverySection_game_start (sm : List Sample) (c : Ctx) (f : Bool) (dp : Int)
    (st : St) : (recoverySection sm c f dp st).pat.game_start = st.pat.game_start := by
  unfold recoverySection
  dsimp only
  split_ifs <;> rfl

theorem momentumSection_game_start (c : Ctx) (st : St) :
    (momentumSection c st).pat.game_start = st.pat.game_start := by
  unfold momentumSection
  dsimp only
  split_ifs <;> rfl

theorem neutralSection_game_start (sm : List Sample) (c : Ctx) (st : St) :
    (neutralSection sm c st).pat.game_start = st.pat.game_start := by
  unfold neutralSection
  dsimp only
  split_ifs <;> cases hns : st.neutralStart <;> dsimp only <;> (try split_ifs) <;> rfl

theorem stageB_game_start (raw sm : List Sample) (gst : Int) (c : Ctx) (st : St) :
    (stageB raw sm gst c st).pat.game_start = st.pat.game_start := by
  unfold stageB
  dsimp only
  rw [show ∀ (s : St) (a b : Int),
      ({ s with prev_p1 := a, prev_p2 := b } : St).pat.game_start = s.pat.game_start
      from fun _ _ _ => rfl]
  rw [neutralSection_game_start, momentumSection_game_start, recoverySection_game_start,
    edgeguardSection_game_start, noneFallbackSection_game_start,
    gameEndSection_game_start, killSection_game_start, stockSection_game_start]

theorem loopStep_game_start (raw sm : List Sample) (gst : Int) (st : St) (i : Nat) :
    (loopStep raw sm gst st i).pat.game_start = st.pat.game_start := by
  unfold loopStep
  dsimp only
  split
  · rfl
  · split
    · rw [show ∀ s : St, ({ s with prevTs := (sm.getD i dummy).timestamp } : St).pat.game_start
          = s.pat.game_start from fun _ => rfl]
      rw [comboSection_game_start, spikeSection_game_start, trackMax_pat]
    · rw [stageB_game_start]
      rw [show ∀ s : St, ({ s with prevTs := (sm.getD i dummy).timestamp } : St).pat.game_start
          = s.pat.game_start from fun _ => rfl]
      rw [comboSection_game_start, spikeSection_game_start, trackMax_pat]

theorem runLoop_game_start (gs : List Sample) :
    (runLoop gs).pat.game_start = resolveStart (smooth_game_states gs) := by
  rw [runLoop_as_fold]
  refine foldl_invariant
    (fun st : St => st.pat.game_start = resolveStart (smooth_game_states gs)) _ _ _ rfl ?_
  intro b i hb
  rw [loopStep_game_start, hb]


/-- C1 (counterexample): on `c1Input`, whose timestamps are not in
chronological order, the returned timeline holds the two confirmed
stock losses in timestamp order as `stocks_remaining = 1` (t = 8)
followed by `stocks_remaining = 2` (t = 30): the sequence of
`stocks_remaining` values in timestamp order is NOT strictly
decreasing, refuting the claim for arbitrary input sample lists. -/
theorem c1_counterexample :
    (find_patterns c1Input).stock_losses =
      [⟨8, 55, 1, false⟩, ⟨30, 55, 2, false⟩] ∧
    ¬ List.Pairwise (fun a b => b.stocks_remaining < a.stocks_remaining)
      (find_patterns c1Input).stock_losses := by
  constructor
  · decide
  · decide


theorem evInv_mono_n {α : Type} (val ts : α → Int) (sm : List Sample) {n m : Nat}
    (l : List α) (conf : Int) (go : Bool) (h : evInv val ts sm n l conf go)
    (hnm : n ≤ m) : evInv val ts sm m l conf go := by
  obtain ⟨hpw, hex, hgo⟩ := h
  refine ⟨hpw, ?_, hgo⟩
  intro e he
  obtain ⟨j, hj, hjl, hjts⟩ := hex e he
  exact ⟨j, by omega, hjl, hjts⟩

theorem evInv_of_false {α : Type} (val ts : α → Int) (sm : List Sample) (n : Nat)
    (l : List α) (conf : Int) (h : evInv val ts sm n l conf false) (go : Bool) :
    evInv val ts sm n l conf go := by
  obtain ⟨hpw, hex, hgo⟩ := h
  cases go
  · exact ⟨hpw, hex, hgo⟩
  · exact ⟨hpw, hex, by simp⟩

theorem evInv_to_true {α : Type} (val ts : α → Int) (sm : List Sample) (n : Nat)
    (l : List α) (conf conf' : Int) (go : Bool)
    (h : evInv val ts sm n l conf go) : evInv val ts sm n l conf' true :=
  ⟨h.1, h.2.1, by simp⟩

theorem evInv_append {α : Type} (val ts : α → Int) (sm : List Sample) {i : Nat}
    (l : List α) (conf v : Int) (go' : Bool) (e : α)
    (hts : ∀ j k, j ≤ k → k < sm.length → tsOf sm j ≤ tsOf sm k)
    (h : evInv val ts sm i l conf false)
    (hi : i < sm.length)
    (he_ts : ts e = tsOf sm i) (he_v : val e = v)
    (hv : v < conf) (hgo : go' = false → 1 ≤ v) :
    evInv val ts sm (i + 1) (l ++ [e]) v go' := by
  obtain ⟨hpw, hex, hgo0⟩ := h
  obtain ⟨hc1, hub⟩ := hgo0 rfl
  refine ⟨?_, ?_, ?_⟩
  · rw [List.pairwise_append]
    refine ⟨hpw, List.pairwise_singleton _ _, ?_⟩
    intro a ha b hb
    rw [List.mem_singleton] at hb
    subst hb
    refine ⟨by rw [he_v]; exact lt_of_lt_of_le hv (hub a ha), ?_⟩
    obtain ⟨j, hj, hjl, hjts⟩ := hex a ha
    rw [hjts, he_ts]
    exact hts j i (by omega) hi
  · intro x hx
    rcases List.mem_append.mp hx with hx | hx
    · obtain ⟨j, hj, hjl, hjts⟩ := hex x hx
      exact ⟨j, by omega, hjl, hjts⟩
    · rw [List.mem_singleton] at hx
      subst hx
      exact ⟨i, by omega, hi, he_ts⟩
  · intro hgo'
    refine ⟨hgo hgo', ?_⟩
    intro x hx
    rcases List.mem_append.mp hx with hx | hx
    · exact le_trans (le_of_lt hv) (hub x hx)
    · rw [List.mem_singleton] at hx
      subst hx
      rw [he_v]

theorem evInv_append_ender {α : Type} (val ts : α → Int) (sm : List Sample) {i : Nat}
    (l : List α) (conf : Int) (e : α)
    (hts : ∀ j k, j ≤ k → k < sm.length → tsOf sm j ≤ tsOf sm k)
    (h : evInv val ts sm (i + 1) l conf false)
    (hi : i < sm.length)
    (he_ts : ts e = tsOf sm i) (he_v : val e = 0) :
    evInv val ts sm (i + 1) (l ++ [e]) conf true := by
  obtain ⟨hpw, hex, hgo0⟩ := h
  obtain ⟨hc1, hub⟩ := hgo0 rfl
  refine ⟨?_, ?_, by simp⟩
  · rw [List.pairwise_append]
    refine ⟨hpw, List.pairwise_singleton _ _, ?_⟩
    intro a ha b hb
    rw [List.mem_singleton] at hb
    subst hb
    refine ⟨by rw [he_v]; exact lt_of_lt_of_le (by omega) (hub a ha), ?_⟩
    obtain ⟨j, hj, hjl, hjts⟩ := hex a ha
    rw [hjts, he_ts]
    exact hts j i (by omega) hi
  · intro x hx
    rcases List.mem_append.mp hx with hx | hx
    · exact hex x hx
    · rw [List.mem_singleton] at hx
      subst hx
      exact ⟨i, by omega, hi, he_ts⟩

/-- Effect of the p1 stock section on the stock-loss invariant: the new
event's `stocks_remaining` strictly undercuts the previous confirmed
count (which bounded all earlier events), the kill side is untouched,
and the game-over flag can only be raised. -/
theorem stockSection_inv (gs sm : List Sample) (c : Ctx) (d r : Option Int) (st : St)
    (i : Nat)
    (hts : ∀ j k, j ≤ k → k < sm.length → tsOf sm j ≤ tsOf sm k)
    (hct : c.timestamp = tsOf sm i) (hi : i < sm.length)
    (hdv : ∀ v, d = some v → v < st.conf1 ∧ 0 ≤ v)
    (h1 : evInv slVal slTs sm i st.pat.stock_losses st.conf1 false) :
    evInv slVal slTs sm (i + 1) (stockSection gs c d r st).pat.stock_losses
      (stockSection gs c d r st).conf1 (stockSection gs c d r st).gameOver ∧
    (stockSection gs c d r st).pat.kills = st.pat.kills ∧
    (stockSection gs c d r st).conf2 = st.conf2 ∧
    ((stockSection gs c d r st).gameOver = false → st.gameOver = false) := by
  rcases d with _ | v
  · rcases r with _ | dp
    · rw [stockSection_skip]
      exact ⟨evInv_of_false _ _ _ _ _ _
        (evInv_mono_n _ _ _ _ _ _ h1 (Nat.le_succ i)) _, rfl, rfl, fun h => h⟩
    · rw [stockSection_reset]
      have hc1 : 1 ≤ st.conf1 := (h1.2.2 rfl).1
      refine ⟨?_, rfl, rfl, ?_⟩
      · refine evInv_append slVal slTs sm st.pat.stock_losses st.conf1
          (max 0 (st.conf1 - 1)) _ _ hts h1 hi hct rfl (by omega) ?_
        intro hg
        by_cases h0 : max 0 (st.conf1 - 1) = 0
        · rw [if_pos h0] at hg
          exact absurd hg (by simp)
        · omega
      · intro hg
        dsimp only at hg
        by_cases h0 : max 0 (st.conf1 - 1) = 0
        · rw [if_pos h0] at hg
          exact absurd hg (by simp)
        · rw [if_neg h0] at hg
          exact hg
  · rw [stockSection_death]
    obtain ⟨hv, hv0⟩ := hdv v rfl
    refine ⟨?_, rfl, rfl, ?_⟩
    · refine evInv_append slVal slTs sm st.pat.stock_losses st.conf1 v _ _ hts h1 hi
        hct rfl hv ?_
      intro hg
      by_cases h0 : v = 0
      · rw [if_pos h0] at hg
        exact absurd hg (by simp)
      · omega
    · intro hg
      dsimp only at hg
      by_cases h0 : v = 0
      · rw [if_pos h0] at hg
        exact absurd hg (by simp)
      · rw [if_neg h0] at hg
        exact hg

/-- The mirrored effect of the opponent (kill) section. -/
theorem killSection_inv (gs sm : List Sample) (c : Ctx) (d r : Option Int) (st : St)
    (i : Nat)
    (hts : ∀ j k, j ≤ k → k < sm.length → tsOf sm j ≤ tsOf sm k)
    (hct : c.timestamp = tsOf sm i) (hi : i < sm.length)
    (hdv : ∀ v, d = some v → v < st.conf2 ∧ 0 ≤ v)
    (h2 : evInv kVal kTs sm i st.pat.kills st.conf2 false) :
    evInv kVal kTs sm (i + 1) (killSection gs c d r st).pat.kills
      (killSection gs c d r st).conf2 (killSection gs c d r st).gameOver ∧
    (killSection gs c d r st).pat.stock_losses = st.pat.stock_losses ∧
    (killSection gs c d r st).conf1 = st.conf1 ∧
    ((killSection gs c d r st).gameOver = false → st.gameOver = false) := by
  rcases d with _ | v
  · rcases r with _ | dp
    · rw [killSection_skip]
      exact ⟨evInv_of_false _ _ _ _ _ _
        (evInv_mono_n _ _ _ _ _ _ h2 (Nat.le_succ i)) _, rfl, rfl, fun h => h⟩
    · rw [killSection_reset]
      have hc1 : 1 ≤ st.conf2 := (h2.2.2 rfl).1
      refine ⟨?_, rfl, rfl, ?_⟩
      · refine evInv_append kVal kTs sm st.pat.kills st.conf2
          (max 0 (st.conf2 - 1)) _ _ hts h2 hi hct rfl (by omega) ?_
        intro hg
        by_cases h0 : max 0 (st.conf2 - 1) = 0
        · rw [if_pos h0] at hg
          exact absurd hg (by simp)
        · omega
      · intro hg
        dsimp only at hg
        by_cases h0 : max 0 (st.conf2 - 1) = 0
        · rw [if_pos h0] at hg
          exact absurd hg (by simp)
        · rw [if_neg h0] at hg
          exact hg
  · rw [killSection_death]
    obtain ⟨hv, hv0⟩ := hdv v rfl
    refine ⟨?_, rfl, rfl, ?_⟩
    · refine evInv_append kVal kTs sm st.pat.kills st.conf2 v _ _ hts h2 hi
        hct rfl hv ?_
      intro hg
      by_cases h0 : v = 0
      · rw [if_pos h0] at hg
        exact absurd hg (by simp)
      · omega
    · intro hg
      dsimp only at hg
      by_cases h0 : v = 0
      · rw [if_pos h0] at hg
        exact absurd hg (by simp)
      · rw [if_neg h0] at hg
        exact hg

/-- Combined effect of the four stock-side stages of one iteration
(p1 stock losses, p2 kills, game-end stamp, end-of-stream fallbacks) on
the two event-list invariants, for arbitrary detector outcomes bounded
by the current confirmed counts. -/
theorem postSections_inv (gs sm : List Sample) (c : Ctx) (d1 r1 d2 r2 : Option Int)
    (st : St) (i : Nat)
    (hts : ∀ j k, j ≤ k → k < sm.length → tsOf sm j ≤ tsOf sm k)
    (hct : c.timestamp = tsOf sm i) (hi : i < sm.length)
    (hdv1 : ∀ v, d1 = some v → v < st.conf1 ∧ 0 ≤ v)
    (hdv2 : ∀ v, d2 = some v → v < st.conf2 ∧ 0 ≤ v)
    (h1 : evInv slVal slTs sm i st.pat.stock_losses st.conf1 false)
    (h2 : evInv kVal kTs sm i st.pat.kills st.conf2 false) :
    evInv slVal slTs sm (i + 1)
      (noneFallbackSection sm c (gameEndSection c
        (killSection gs c d2 r2 (stockSection gs c d1 r1 st)))).pat.stock_losses
      (noneFallbackSection sm c (gameEndSection c
        (killSection gs c d2 r2 (stockSection gs c d1 r1 st)))).conf1
      (noneFallbackSection sm c (gameEndSection c
        (killSection gs c d2 r2 (stockSection gs c d1 r1 st)))).gameOver ∧
    evInv kVal kTs sm (i + 1)
      (noneFallbackSection sm c (gameEndSection c
        (killSection gs c d2 r2 (stockSection gs c d1 r1 st)))).pat.kills
      (noneFallbackSection sm c (gameEndSection c
        (killSection gs c d2 r2 (stockSection gs c d1 r1 st)))).conf2
      (noneFallbackSection sm c (gameEndSection c
        (killSection gs c d2 r2 (stockSection gs c d1 r1 st)))).gameOver := by
  set S := stockSection gs c d1 r1 st with hS
  set K := killSection gs c d2 r2 S with hK
  set G := gameEndSection c K with hG
  set N := noneFallbackSection sm c G with hN
  obtain ⟨hS1, hSk, hSc2, hSgo⟩ := stockSection_inv gs sm c d1 r1 st i hts hct hi hdv1 h1
  obtain ⟨hK2, hKsl, hKc1, hKgo⟩ := killSection_inv gs sm c d2 r2 S i hts hct hi
    (fun v h => by rw [hSc2]; exact hdv2 v h)
    (by rw [hSk, hSc2]; exact h2)
  have hK1 : evInv slVal slTs sm (i + 1) K.pat.stock_losses K.conf1 K.gameOver := by
    rw [hKsl, hKc1]
    cases hg : K.gameOver
    · rw [hKgo hg] at hS1
      exact hS1
    · exact evInv_to_true _ _ _ _ _ _ _ _ hS1
  obtain ⟨hGsl, hGk, hGc1, hGc2, hGgo⟩ := stockView_parts (gameEndSection_stockView c K)
  have hG1 : evInv slVal slTs sm (i + 1) G.pat.stock_losses G.conf1 G.gameOver := by
    rw [hGsl, hGc1, hGgo]
    exact hK1
  have hG2 : evInv kVal kTs sm (i + 1) G.pat.kills G.conf2 G.gameOver := by
    rw [hGk, hGc2, hGgo]
    exact hK2
  by_cases hNg : N.gameOver = false
  · obtain ⟨hNeq, hGgo'⟩ := noneFallbackSection_gameOver_false sm c G hNg
    rw [hN, hNeq]
    exact ⟨hG1, hG2⟩
  · have hNg' : N.gameOver = true := by
      cases h : N.gameOver
      · exact absurd h hNg
      · rfl
    obtain ⟨hNc1, hNc2⟩ := noneFallbackSection_conf sm c G
    constructor
    · rw [hNc1, hNg']
      rcases noneFallbackSection_stock sm c G with hsame | ⟨hGgo0, happ⟩
      · rw [hsame]
        exact evInv_to_true _ _ _ _ _ _ _ _ hG1
      · rw [happ]
        refine evInv_append_ender slVal slTs sm _ _ _ hts ?_ hi hct rfl
        rw [hGgo0] at hG1
        exact hG1
    · rw [hNc2, hNg']
      rcases noneFallbackSection_kills sm c G with hsame | ⟨hGgo0, happ⟩
      · rw [hsame]
        exact evInv_to_true _ _ _ _ _ _ _ _ hG2
      · rw [happ]
        refine evInv_append_ender kVal kTs sm _ _ _ hts ?_ hi hct rfl
        rw [hGgo0] at hG2
        exact hG2

/-- One whole `stageB` call preserves the two event-list invariants,
advancing the sample index. -/
theorem stageB_stockInv (gs sm : List Sample) (gst : Int) (c : Ctx) (st : St) (i : Nat)
    (hts : ∀ j k, j ≤ k → k < sm.length → tsOf sm j ≤ tsOf sm k)
    (hnn1 : ∀ s ∈ sm, ∀ u, p1stk s = some u → 0 ≤ u)
    (hnn2 : ∀ s ∈ sm, ∀ u, p2stk s = some u → 0 ≤ u)
    (hct : c.timestamp = tsOf sm i) (hi : i < sm.length)
    (h1 : evInv slVal slTs sm i st.pat.stock_losses st.conf1 false)
    (h2 : evInv kVal kTs sm i st.pat.kills st.conf2 false) :
    evInv slVal slTs sm (i + 1) (stageB gs sm gst c st).pat.stock_losses
      (stageB gs sm gst c st).conf1 (stageB gs sm gst c st).gameOver ∧
    evInv kVal kTs sm (i + 1) (stageB gs sm gst c st).pat.kills
      (stageB gs sm gst c st).conf2 (stageB gs sm gst c st).gameOver := by
  obtain ⟨hB1, hB2, hB3, hB4, hB5⟩ := stockView_parts (stageB_stockView gs sm gst c st)
  rw [hB1, hB2, hB3, hB4, hB5]
  refine postSections_inv gs sm c _ _ _ _ st i hts hct hi ?_ ?_ h1 h2
  · intro v h
    exact ⟨detect_stock_loss_lt _ _ _ _ _ _ _ _ h,
      detect_stock_loss_nonneg _ _ _ _ _ _ _ _ rfl hnn1 h⟩
  · intro v h
    exact ⟨detect_stock_loss_lt _ _ _ _ _ _ _ _ h,
      detect_stock_loss_nonneg _ _ _ _ _ _ _ _ rfl hnn2 h⟩

/-- One whole loop iteration preserves the two event-list invariants. -/
theorem loopStep_stockInv (gs sm : List Sample) (gst : Int) (st : St) (i : Nat)
    (hts : ∀ j k, j ≤ k → k < sm.length → tsOf sm j ≤ tsOf sm k)
    (hnn1 : ∀ s ∈ sm, ∀ u, p1stk s = some u → 0 ≤ u)
    (hnn2 : ∀ s ∈ sm, ∀ u, p2stk s = some u → 0 ≤ u)
    (hi : i < sm.length)
    (h1 : evInv slVal slTs sm i st.pat.stock_losses st.conf1 st.gameOver)
    (h2 : evInv kVal kTs sm i st.pat.kills st.conf2 st.gameOver) :
    evInv slVal slTs sm (i + 1) (loopStep gs sm gst st i).pat.stock_losses
      (loopStep gs sm gst st i).conf1 (loopStep gs sm gst st i).gameOver ∧
    evInv kVal kTs sm (i + 1) (loopStep gs sm gst st i).pat.kills
      (loopStep gs sm gst st i).conf2 (loopStep gs sm gst st i).gameOver := by
  have hview : stockView ({ comboSection (mkCtx st (sm.getD i dummy) i)
      (spikeSection sm (mkCtx st (sm.getD i dummy) i)
        (trackMax gs (mkCtx st (sm.getD i dummy) i) st)) with
      prevTs := (mkCtx st (sm.getD i dummy) i).timestamp } : St) = stockView st := by
    rw [show ∀ (s : St) (x : Int), stockView { s with prevTs := x } = stockView s
        from fun _ _ => rfl]
    rw [comboSection_stockView, spikeSection_stockView, trackMax_stockView]
  obtain ⟨e1, e2, e3, e4, e5⟩ := stockView_parts hview
  unfold loopStep
  dsimp only
  split
  · exact ⟨evInv_mono_n _ _ _ _ _ _ h1 (Nat.le_succ i),
      evInv_mono_n _ _ _ _ _ _ h2 (Nat.le_succ i)⟩
  · split
    · rw [e1, e2, e3, e4, e5]
      exact ⟨evInv_mono_n _ _ _ _ _ _ h1 (Nat.le_succ i),
        evInv_mono_n _ _ _ _ _ _ h2 (Nat.le_succ i)⟩
    · rename_i hgo4
      simp only [Bool.not_eq_true] at hgo4
      rw [e5] at hgo4
      refine stageB_stockInv gs sm gst _ _ i hts hnn1 hnn2 rfl hi ?_ ?_
      · rw [e1, e3]
        rw [hgo4] at h1
        exact h1
      · rw [e2, e4]
        rw [hgo4] at h2
        exact h2

/-- The whole main pass establishes the two event-list invariants, given
chronologically ordered input samples with nonnegative stock readings. -/
theorem runLoop_stockInv (gs : List Sample)
    (hsort : List.Pairwise (fun a b : Sample => a.timestamp ≤ b.timestamp) gs)
    (hnn1 : ∀ s ∈ gs, ∀ u, p1stk s = some u → 0 ≤ u)
    (hnn2 : ∀ s ∈ gs, ∀ u, p2stk s = some u → 0 ≤ u) :
    List.Pairwise (fun a b => slVal b < slVal a ∧ slTs a ≤ slTs b)
      (runLoop gs).pat.stock_losses ∧
    List.Pairwise (fun a b => kVal b < kVal a ∧ kTs a ≤ kTs b)
      (runLoop gs).pat.kills := by
  have hts : ∀ j k, j ≤ k → k < (smooth_game_states gs).length →
      tsOf (smooth_game_states gs) j ≤ tsOf (smooth_game_states gs) k := by
    intro j k hjk hk
    rw [smooth_timestamp, smooth_timestamp]
    exact sorted_tsOf gs hsort j k hjk (by rwa [smooth_length] at hk)
  have hmain : evInv slVal slTs (smooth_game_states gs) (smooth_game_states gs).length
        (runLoop gs).pat.stock_losses (runLoop gs).conf1 (runLoop gs).gameOver ∧
      evInv kVal kTs (smooth_game_states gs) (smooth_game_states gs).length
        (runLoop gs).pat.kills (runLoop gs).conf2 (runLoop gs).gameOver := by
    rw [runLoop_as_fold]
    refine foldl_range_invariant (fun (n : Nat) (st : St) =>
      evInv slVal slTs (smooth_game_states gs) n st.pat.stock_losses st.conf1 st.gameOver ∧
      evInv kVal kTs (smooth_game_states gs) n st.pat.kills st.conf2 st.gameOver)
      _ _ _ ⟨?_, ?_⟩ ?_
    · exact ⟨List.Pairwise.nil,
        fun e he => absurd he (List.not_mem_nil e),
        fun _ => ⟨show (1 : Int) ≤ 3 by norm_num,
          fun e he => absurd he (List.not_mem_nil e)⟩⟩
    · exact ⟨List.Pairwise.nil,
        fun e he => absurd he (List.not_mem_nil e),
        fun _ => ⟨show (1 : Int) ≤ 3 by norm_num,
          fun e he => absurd he (List.not_mem_nil e)⟩⟩
    · intro b i hi hb
      exact loopStep_stockInv gs (smooth_game_states gs) _ b i hts
        (smooth_stocks_nonneg_p1 gs hnn1) (smooth_stocks_nonneg_p2 gs hnn2) hi hb.1 hb.2
  exact ⟨hmain.1.1, hmain.2.1⟩

/-- Deduplication only removes events from the (already sorted) list, so
any pairwise property of the pass output survives it. -/
theorem deduplicate_pairwise {α : Type} (ts key : α → Int) (w : Int) (l : List α)
    (R : α → α → Prop) (hpw : List.Pairwise R l)
    (hsorted : List.Pairwise (fun a b => ts a ≤ ts b) l) :
    List.Pairwise R (deduplicate_events ts key w l) := by
  unfold deduplicate_events
  split
  · exact hpw
  · rw [List.Sorted.insertionSort_eq hsorted]
    obtain ⟨s, hs, hsub⟩ := dedupFold_go ts key w l [] (-999)
    unfold dedupFold
    rw [hs, List.nil_append]
    exact hpw.sublist hsub

/-- C1 (amended): for input samples in chronological order whose stock
readings are nonnegative (as OCR digit reads are), each player's
confirmed stock count never increases: in the returned timeline the
`stocks_remaining` values of the stock losses, and the mirrored
`opponent_stocks_remaining` values of the kills, are strictly decreasing
in timestamp order (the returned lists being sorted by timestamp).  The
unamended claim over arbitrary input lists fails: out-of-order
timestamps let the dedup re-sort interleave the events
(`c1_counterexample`). -/
theorem c1_monotonic_stocks_amended (gs : List Sample)
    (hsort : List.Pairwise (fun a b : Sample => a.timestamp ≤ b.timestamp) gs)
    (hnn1 : ∀ s ∈ gs, ∀ u, p1stk s = some u → 0 ≤ u)
    (hnn2 : ∀ s ∈ gs, ∀ u, p2stk s = some u → 0 ≤ u) :
    List.Pairwise (fun a b => b.stocks_remaining < a.stocks_remaining ∧
      a.timestamp ≤ b.timestamp) (find_patterns gs).stock_losses ∧
    List.Pairwise (fun a b => b.opponent_stocks_remaining < a.opponent_stocks_remaining ∧
      a.timestamp ≤ b.timestamp) (find_patterns gs).kills := by
  by_cases hlen : gs.length < 2
  · unfold find_patterns
    rw [if_pos hlen]
    exact ⟨List.Pairwise.nil, List.Pairwise.nil⟩
  · obtain ⟨hL1, hL2⟩ := runLoop_stockInv gs hsort hnn1 hnn2
    rw [find_patterns_of_runLoop gs hlen]
    dsimp only
    constructor
    · exact deduplicate_pairwise (fun e => e.timestamp) (fun e => e.stocks_remaining) 5
        (runLoop gs).pat.stock_losses _ hL1 (List.Pairwise.imp (fun h => h.2) hL1)
    · exact deduplicate_pairwise (fun e => e.timestamp)
        (fun e => e.opponent_stocks_remaining) 5
        (runLoop gs).pat.kills _ hL2 (List.Pairwise.imp (fun h => h.2) hL2)

/-- C1 witness: the amended monotonicity theorem applied to the
chronologically ordered `comboTrailInput`. -/
theorem c1_witness :
    List.Pairwise (fun a b : Sample => a.timestamp ≤ b.timestamp) comboTrailInput ∧
    List.Pairwise (fun a b => b.stocks_remaining < a.stocks_remaining ∧
      a.timestamp ≤ b.timestamp) (find_patterns comboTrailInput).stock_losses :=
  ⟨by decide, (c1_monotonic_stocks_amended comboTrailInput (by decide) (by decide)
    (by decide)).1⟩

theorem dedupFold_chain {α : Type} (ts key : α → Int) (w : Int) :
    ∀ (l : List α) (acc : List α) (t : Int),
      List.Chain' (fun a b => key b = 0 ∨ w < ts b - ts a) acc →
      (∀ x, acc.getLast? = some x → ts x ≤ t) →
      List.Chain' (fun a b => key b = 0 ∨ w < ts b - ts a)
        (l.foldl (dedupStep ts key w) (acc, t)).1 := by
  intro l
  induction l with
  | nil => exact fun acc t hc hl => hc
  | cons a l ih =>
    intro acc t hc hl
    rw [List.foldl_cons]
    by_cases hk : key a = 0
    · rw [show dedupStep ts key w (acc, t) a =
          (acc ++ [a], if t < ts a then ts a else t) from by
            unfold dedupStep; simp [hk]]
      apply ih
      · rw [List.chain'_append]
        refine ⟨hc, List.chain'_singleton a, ?_⟩
        intro x hx y hy
        rw [List.head?_cons, Option.mem_def] at hy
        injection hy with hy
        subst hy
        exact Or.inl hk
      · intro x hx
        rw [List.getLast?_append_cons, List.getLast?_singleton] at hx
        injection hx with hx
        subst hx
        split
        · exact le_refl _
        · omega
    · by_cases hw : w < ts a - t
      · rw [show dedupStep ts key w (acc, t) a = (acc ++ [a], ts a) from by
            unfold dedupStep; simp [hk, hw]]
        apply ih
        · rw [List.chain'_append]
          refine ⟨hc, List.chain'_singleton a, ?_⟩
          intro x hx y hy
          rw [List.head?_cons, Option.mem_def] at hy
          injection hy with hy
          subst hy
          have := hl x hx
          exact Or.inr (by omega)
        · intro x hx
          rw [List.getLast?_append_cons, List.getLast?_singleton] at hx
          injection hx with hx
          subst hx
          exact le_refl _
      · rw [show dedupStep ts key w (acc, t) a = (acc, t) from by
            unfold dedupStep; simp [hk, hw]]
        exact ih acc t hc hl

theorem dedupFold_cover {α : Type} (ts key : α → Int) :
    ∀ (l : List α) (acc : List α) (t : Int),
      List.Pairwise (fun a b => ts a ≤ ts b) l →
      (∀ e ∈ l, t ≤ ts e) →
      ((t = -999 ∧ ∀ e ∈ l, 0 ≤ ts e) ∨ (∃ x ∈ acc, ts x = t)) →
      ∀ e ∈ l, ∃ k ∈ (l.foldl (dedupStep ts key 5) (acc, t)).1,
        ts k ≤ ts e ∧ ts e - ts k ≤ 5 := by
  intro l
  induction l with
  | nil => exact fun acc t _ _ _ e he => absurd he (List.not_mem_nil e)
  | cons a l ih =>
    intro acc t hpw hge hwit e he
    rw [List.foldl_cons]
    obtain ⟨hpa, hpl⟩ := List.pairwise_cons.mp hpw
    by_cases hk : key a = 0
    · rw [show dedupStep ts key 5 (acc, t) a =
          (acc ++ [a], if t < ts a then ts a else t) from by
            unfold dedupStep; simp [hk]]
      rcases List.mem_cons.mp he with heq | hmem
      · subst heq
        obtain ⟨s, hs, _⟩ := dedupFold_go ts key 5 l (acc ++ [e]) _
        refine ⟨e, ?_, le_refl _, by omega⟩
        rw [hs]
        simp
      · refine ih (acc ++ [a]) _ hpl ?_ ?_ e hmem
        · intro x hx
          split
          · exact hpa x hx
          · exact le_trans (hge x (List.mem_cons_of_mem a hx)) (le_refl _)
        · split
          · exact Or.inr ⟨a, by simp, rfl⟩
          · rcases hwit with ⟨ht, h0⟩ | ⟨x, hx, hxts⟩
            · exact Or.inl ⟨ht, fun y hy => h0 y (List.mem_cons_of_mem a hy)⟩
            · exact Or.inr ⟨x, List.mem_append_left _ hx, hxts⟩
    · by_cases hw : (5 : Int) < ts a - t
      · rw [show dedupStep ts key 5 (acc, t) a = (acc ++ [a], ts a) from by
            unfold dedupStep; simp [hk, hw]]
        rcases List.mem_cons.mp he with heq | hmem
        · subst heq
          obtain ⟨s, hs, _⟩ := dedupFold_go ts key 5 l (acc ++ [e]) _
          refine ⟨e, ?_, le_refl _, by omega⟩
          rw [hs]
          simp
        · refine ih (acc ++ [a]) _ hpl (fun x hx => hpa x hx)
            (Or.inr ⟨a, by simp, rfl⟩) e hmem
      · rw [show dedupStep ts key 5 (acc, t) a = (acc, t) from by
            unfold dedupStep; simp [hk, hw]]
        rcases List.mem_cons.mp he with heq | hmem
        · subst heq
          rcases hwit with ⟨ht, h0⟩ | ⟨x, hx, hxts⟩
          · exfalso
            have := h0 e (List.mem_cons_self e l)
            omega
          · obtain ⟨s, hs, _⟩ := dedupFold_go ts key 5 l acc t
            refine ⟨x, ?_, ?_, ?_⟩
            · rw [hs]
              exact List.mem_append_left _ hx
            · rw [hxts]
              exact hge e (List.mem_cons_self e l)
            · rw [hxts]
              omega
        · refine ih acc t hpl (fun x hx => hge x (List.mem_cons_of_mem a hx)) ?_ e hmem
          rcases hwit with ⟨ht, h0⟩ | hx
          · exact Or.inl ⟨ht, fun y hy => h0 y (List.mem_cons_of_mem a hy)⟩
          · exact Or.inr hx

/-- Effect of the four stock-side stages on the count of 0-stock events:
an iteration entered with the game-over flag down (hence no 0-stock
event recorded yet) ends with at most one 0-stock event per category,
and still none unless the flag was raised. -/
theorem postSections_zero (gs sm : List Sample) (c : Ctx) (d1 r1 d2 r2 : Option Int)
    (st : St)
    (hz1 : st.pat.stock_losses.countP (fun e => decide (e.stocks_remaining = 0)) = 0)
    (hz2 : st.pat.kills.countP (fun e => decide (e.opponent_stocks_remaining = 0)) = 0) :
    ((noneFallbackSection sm c (gameEndSection c
        (killSection gs c d2 r2 (stockSection gs c d1 r1 st)))).gameOver = false →
      (noneFallbackSection sm c (gameEndSection c
        (killSection gs c d2 r2 (stockSection gs c d1 r1 st)))).pat.stock_losses.countP
        (fun e => decide (e.stocks_remaining = 0)) = 0 ∧
      (noneFallbackSection sm c (gameEndSection c
        (killSection gs c d2 r2 (stockSection gs c d1 r1 st)))).pat.kills.countP
        (fun e => decide (e.opponent_stocks_remaining = 0)) = 0) ∧
    (noneFallbackSection sm c (gameEndSection c
        (killSection gs c d2 r2 (stockSection gs c d1 r1 st)))).pat.stock_losses.countP
      (fun e => decide (e.stocks_remaining = 0)) ≤ 1 ∧
    (noneFallbackSection sm c (gameEndSection c
        (killSection gs c d2 r2 (stockSection gs c d1 r1 st)))).pat.kills.countP
      (fun e => decide (e.opponent_stocks_remaining = 0)) ≤ 1 := by
  set S := stockSection gs c d1 r1 st with hS
  set K := killSection gs c d2 r2 S with hK
  set G := gameEndSection c K with hG
  set N := noneFallbackSection sm c G with hN
  have hSfacts :
      S.pat.stock_losses.countP (fun e => decide (e.stocks_remaining = 0)) ≤ 1 ∧
      (S.gameOver = false →
        S.pat.stock_losses.countP (fun e => decide (e.stocks_remaining = 0)) = 0) ∧
      S.pat.kills = st.pat.kills := by
    rw [hS]
    rcases d1 with _ | v
    · rcases r1 with _ | dp
      · rw [stockSection_skip]
        refine ⟨?_, fun _ => hz1, rfl⟩
        rw [hz1]
        omega
      · rw [stockSection_reset]
        refine ⟨?_, ?_, rfl⟩
        · rw [List.countP_append, hz1]
          simp only [List.countP_cons, List.countP_nil, decide_eq_true_eq]
          split_ifs <;> omega
        · intro hgo
          dsimp only at hgo
          by_cases h0 : max 0 (st.conf1 - 1) = 0
          · rw [if_pos h0] at hgo
            exact absurd hgo (by simp)
          · rw [List.countP_append, hz1]
            simp only [List.countP_cons, List.countP_nil, decide_eq_true_eq]
            rw [if_neg (by simpa using h0)]
    · rw [stockSection_death]
      refine ⟨?_, ?_, rfl⟩
      · rw [List.countP_append, hz1]
        simp only [List.countP_cons, List.countP_nil, decide_eq_true_eq]
        split_ifs <;> omega
      · intro hgo
        dsimp only at hgo
        by_cases h0 : v = 0
        · rw [if_pos h0] at hgo
          exact absurd hgo (by simp)
        · rw [List.countP_append, hz1]
          simp only [List.countP_cons, List.countP_nil, decide_eq_true_eq]
          rw [if_neg (by simpa using h0)]
  obtain ⟨hSz1, hSz0, hSk⟩ := hSfacts
  have hKfacts :
      K.pat.kills.countP (fun e => decide (e.opponent_stocks_remaining = 0)) ≤ 1 ∧
      (K.gameOver = false →
        K.pat.kills.countP (fun e => decide (e.opponent_stocks_remaining = 0)) = 0 ∧
        S.gameOver = false) ∧
      K.pat.stock_losses = S.pat.stock_losses := by
    rw [hK]
    have hz2' : S.pat.kills.countP
        (fun e => decide (e.opponent_stocks_remaining = 0)) = 0 := by
      rw [hSk]
      exact hz2
    rcases d2 with _ | v
    · rcases r2 with _ | dp
      · rw [killSection_skip]
        refine ⟨?_, fun h => ⟨hz2', h⟩, rfl⟩
        rw [hz2']
        omega
      · rw [killSection_reset]
        refine ⟨?_, ?_, rfl⟩
        · rw [List.countP_append, hz2']
          simp only [List.countP_cons, List.countP_nil, decide_eq_true_eq]
          split_ifs <;> omega
        · intro hgo
          dsimp only at hgo
          by_cases h0 : max 0 (S.conf2 - 1) = 0
          · rw [if_pos h0] at hgo
            exact absurd hgo (by simp)
          · rw [if_neg h0] at hgo
            refine ⟨?_, hgo⟩
            rw [List.countP_append, hz2']
            simp only [List.countP_cons, List.countP_nil, decide_eq_true_eq]
            rw [if_neg (by simpa using h0)]
    · rw [killSection_death]
      refine ⟨?_, ?_, rfl⟩
      · rw [List.countP_append, hz2']
        simp only [List.countP_cons, List.countP_nil, decide_eq_true_eq]
        split_ifs <;> omega
      · intro hgo
        dsimp only at hgo
        by_cases h0 : v = 0
        · rw [if_pos h0] at hgo
          exact absurd hgo (by simp)
        · rw [if_neg h0] at hgo
          refine ⟨?_, hgo⟩
          rw [List.countP_append, hz2']
          simp only [List.countP_cons, List.countP_nil, decide_eq_true_eq]
          rw [if_neg (by simpa using h0)]
  obtain ⟨hKz2, hKz0, hKsl⟩ := hKfacts
  obtain ⟨hGsl, hGk, hGc1, hGc2, hGgo⟩ := stockView_parts (gameEndSection_stockView c K)
  by_cases hNg : N.gameOver = false
  · obtain ⟨hNeq, hGgo'⟩ := noneFallbackSection_gameOver_false sm c G hNg
    rw [hN, hNeq]
    rw [hGgo] at hGgo'
    obtain ⟨hKz, hSgo⟩ := hKz0 hGgo'
    have hsl0 : G.pat.stock_losses.countP (fun e => decide (e.stocks_remaining = 0)) = 0 := by
      rw [hGsl, hKsl]
      exact hSz0 hSgo
    have hk0 : G.pat.kills.countP
        (fun e => decide (e.opponent_stocks_remaining = 0)) = 0 := by
      rw [hGk]
      exact hKz
    refine ⟨fun _ => ⟨hsl0, hk0⟩, ?_, ?_⟩
    · rw [hsl0]
      exact Nat.zero_le 1
    · rw [hk0]
      exact Nat.zero_le 1
  · have hNg' : N.gameOver = true := by
      cases h : N.gameOver
      · exact absurd h hNg
      · rfl
    refine ⟨fun h => absurd h (by rw [hNg']; simp), ?_, ?_⟩
    · rcases noneFallbackSection_stock sm c G with hsame | ⟨hGgo0, happ⟩
      · rw [hN, hsame, hGsl, hKsl]
        exact hSz1
      · rw [hN, happ, List.countP_append]
        rw [hGgo] at hGgo0
        obtain ⟨hKz, hSgo⟩ := hKz0 hGgo0
        rw [hGsl, hKsl, hSz0 hSgo]
        simp
    · rcases noneFallbackSection_kills sm c G with hsame | ⟨hGgo0, happ⟩
      · rw [hN, hsame, hGk]
        exact hKz2
      · rw [hN, happ, List.countP_append]
        rw [hGgo] at hGgo0
        obtain ⟨hKz, hSgo⟩ := hKz0 hGgo0
        rw [hGk, hKz]
        simp

theorem stageB_zero (gs sm : List Sample) (gst : Int) (c : Ctx) (st : St)
    (hz1 : st.pat.stock_losses.countP (fun e => decide (e.stocks_remaining = 0)) = 0)
    (hz2 : st.pat.kills.countP (fun e => decide (e.opponent_stocks_remaining = 0)) = 0) :
    ((stageB gs sm gst c st).gameOver = false →
      (stageB gs sm gst c st).pat.stock_losses.countP
        (fun e => decide (e.stocks_remaining = 0)) = 0 ∧
      (stageB gs sm gst c st).pat.kills.countP
        (fun e => decide (e.opponent_stocks_remaining = 0)) = 0) ∧
    (stageB gs sm gst c st).pat.stock_losses.countP
      (fun e => decide (e.stocks_remaining = 0)) ≤ 1 ∧
    (stageB gs sm gst c st).pat.kills.countP
      (fun e => decide (e.opponent_stocks_remaining = 0)) ≤ 1 := by
  obtain ⟨hB1, hB2, hB3, hB4, hB5⟩ := stockView_parts (stageB_stockView gs sm gst c st)
  rw [hB1, hB2, hB5]
  exact postSections_zero gs sm c _ _ _ _ st hz1 hz2

theorem loopStep_zero (gs sm : List Sample) (gst : Int) (st : St) (i : Nat)
    (h : (st.gameOver = false →
        st.pat.stock_losses.countP (fun e => decide (e.stocks_remaining = 0)) = 0 ∧
        st.pat.kills.countP (fun e => decide (e.opponent_stocks_remaining = 0)) = 0) ∧
      st.pat.stock_losses.countP (fun e => decide (e.stocks_remaining = 0)) ≤ 1 ∧
      st.pat.kills.countP (fun e => decide (e.opponent_stocks_remaining = 0)) ≤ 1) :
    ((loopStep gs sm gst st i).gameOver = false →
      (loopStep gs sm gst st i).pat.stock_losses.countP
        (fun e => decide (e.stocks_remaining = 0)) = 0 ∧
      (loopStep gs sm gst st i).pat.kills.countP
        (fun e => decide (e.opponent_stocks_remaining = 0)) = 0) ∧
    (loopStep gs sm gst st i).pat.stock_losses.countP
      (fun e => decide (e.stocks_remaining = 0)) ≤ 1 ∧
    (loopStep gs sm gst st i).pat.kills.countP
      (fun e => decide (e.opponent_stocks_remaining = 0)) ≤ 1 := by
  have hview : stockView ({ comboSection (mkCtx st (sm.getD i dummy) i)
      (spikeSection sm (mkCtx st (sm.getD i dummy) i)
        (trackMax gs (mkCtx st (sm.getD i dummy) i) st)) with
      prevTs := (mkCtx st (sm.getD i dummy) i).timestamp } : St) = stockView st := by
    rw [show ∀ (s : St) (x : Int), stockView { s with prevTs := x } = stockView s
        from fun _ _ => rfl]
    rw [comboSection_stockView, spikeSection_stockView, trackMax_stockView]
  obtain ⟨e1, e2, e3, e4, e5⟩ := stockView_parts hview
  unfold loopStep
  dsimp only
  split
  · exact h
  · split
    · rw [e1, e2, e5]
      exact h
    · rename_i hgo4
      simp only [Bool.not_eq_true] at hgo4
      rw [e5] at hgo4
      obtain ⟨hz, hb1, hb2⟩ := h
      obtain ⟨hz1, hz2⟩ := hz hgo4
      refine stageB_zero gs sm gst (mkCtx st (sm.getD i dummy) i) _ ?_ ?_
      · rw [e1]
        exact hz1
      · rw [e2]
        exact hz2

theorem runLoop_zero (gs : List Sample) :
    ((runLoop gs).gameOver = false →
      (runLoop gs).pat.stock_losses.countP
        (fun e => decide (e.stocks_remaining = 0)) = 0 ∧
      (runLoop gs).pat.kills.countP
        (fun e => decide (e.opponent_stocks_remaining = 0)) = 0) ∧
    (runLoop gs).pat.stock_losses.countP
      (fun e => decide (e.stocks_remaining = 0)) ≤ 1 ∧
    (runLoop gs).pat.kills.countP
      (fun e => decide (e.opponent_stocks_remaining = 0)) ≤ 1 := by
  rw [runLoop_as_fold]
  refine foldl_invariant (fun st : St =>
    (st.gameOver = false →
      st.pat.stock_losses.countP (fun e => decide (e.stocks_remaining = 0)) = 0 ∧
      st.pat.kills.countP (fun e => decide (e.opponent_stocks_remaining = 0)) = 0) ∧
    st.pat.stock_losses.countP (fun e => decide (e.stocks_remaining = 0)) ≤ 1 ∧
    st.pat.kills.countP (fun e => decide (e.opponent_stocks_remaining = 0)) ≤ 1)
    _ _ _ ⟨fun _ => ⟨by simp [initSt, emptyPatterns], by simp [initSt, emptyPatterns]⟩,
      by simp [initSt, emptyPatterns], by simp [initSt, emptyPatterns]⟩ ?_
  intro b i hb
  exact loopStep_zero gs (smooth_game_states gs) _ b i hb

/-- Deduplication never increases the number of events satisfying any
predicate (its output is a sublist of the input up to the sort). -/
theorem deduplicate_countP_le {α : Type} (ts key : α → Int) (w : Int) (l : List α)
    (p : α → Bool) :
    (deduplicate_events ts key w l).countP p ≤ l.countP p := by
  unfold deduplicate_events
  split
  · exact le_refl _
  · obtain ⟨s, hs, hsub⟩ := dedupFold_go ts key w
      (l.insertionSort fun a b => ts a ≤ ts b) [] (-999)
    unfold dedupFold
    rw [hs, List.nil_append]
    calc s.countP p ≤ (l.insertionSort fun a b => ts a ≤ ts b).countP p :=
          hsub.countP_le p
      _ = l.countP p := (List.perm_insertionSort _ l).countP_eq p

/-- C3: deduplication keeps every event whose key (`stocks_remaining` /
`opponent_stocks_remaining`) is 0 regardless of proximity (part 1);
consecutive kept events are more than the 5-second window apart unless
the later one is a 0-key event (part 2); every input event lies within
the window at-or-after some kept event, i.e. events inside a window are
collapsed onto the earliest kept one (part 3, for the nonnegative video
timestamps); and the final timeline holds at most one 0-stock event per
player (part 4), because the main pass raises the game-over flag
whenever it records one and then stops recording. -/
theorem c3_dedup_final_retention :
    (∀ (α : Type) (ts key : α → Int) (l : List α) (e : α),
      e ∈ l → key e = 0 → e ∈ deduplicate_events ts key 5 l) ∧
    (∀ (α : Type) (ts key : α → Int) (l : List α),
      List.Chain' (fun a b => key b = 0 ∨ 5 < ts b - ts a)
        (deduplicate_events ts key 5 l)) ∧
    (∀ (α : Type) (ts key : α → Int) (l : List α),
      (∀ e ∈ l, 0 ≤ ts e) →
      ∀ e ∈ l, ∃ k ∈ deduplicate_events ts key 5 l,
        ts k ≤ ts e ∧ ts e - ts k ≤ 5) ∧
    (∀ gs : List Sample,
      (find_patterns gs).stock_losses.countP
        (fun e => decide (e.stocks_remaining = 0)) ≤ 1 ∧
      (find_patterns gs).kills.countP
        (fun e => decide (e.opponent_stocks_remaining = 0)) ≤ 1) := by
  refine ⟨?_, ?_, ?_, ?_⟩
  · intro α ts key l e he hk
    unfold deduplicate_events
    split
    · exact he
    · exact dedupFold_keeps_zero ts key 5 _ [] (-999) e
        ((List.perm_insertionSort _ l).mem_iff.mpr he) hk
  · intro α ts key l
    unfold deduplicate_events
    split
    · rename_i h
      rw [List.isEmpty_iff.mp h]
      exact List.chain'_nil
    · exact dedupFold_chain ts key 5 _ [] (-999) List.chain'_nil
        (fun x hx => Option.noConfusion hx)
  · intro α ts key l h0 e he
    unfold deduplicate_events
    split
    · exact ⟨e, he, le_refl _, by omega⟩
    · letI : IsTotal α (fun a b => ts a ≤ ts b) := ⟨fun a b => le_total _ _⟩
      letI : IsTrans α (fun a b => ts a ≤ ts b) := ⟨fun a b c h1 h2 => le_trans h1 h2⟩
      refine dedupFold_cover ts key _ [] (-999)
        (List.sorted_insertionSort _ l) ?_ ?_ e
        ((List.perm_insertionSort _ l).mem_iff.mpr he)
      · intro x hx
        have := h0 x ((List.perm_insertionSort _ l).mem_iff.mp hx)
        omega
      · exact Or.inl ⟨rfl, fun x hx =>
          h0 x ((List.perm_insertionSort _ l).mem_iff.mp hx)⟩
  · intro gs
    by_cases hlen : gs.length < 2
    · unfold find_patterns
      rw [if_pos hlen]
      exact ⟨by simp [emptyPatterns], by simp [emptyPatterns]⟩
    · rw [find_patterns_of_runLoop gs hlen]
      dsimp only
      obtain ⟨_, hb1, hb2⟩ := runLoop_zero gs
      exact ⟨le_trans (deduplicate_countP_le _ _ 5 _ _) hb1,
        le_trans (deduplicate_countP_le _ _ 5 _ _) hb2⟩

/-- C3 witness: the retention part applied to a concrete two-event list
whose 0-stock event falls inside the other's window, and the
at-most-one-0-stock part applied to `comboTrailInput`. -/
theorem c3_witness :
    ((⟨30, 55, 0, false⟩ : StockLossEvent) ∈
      deduplicate_events (fun e => e.timestamp) (fun e => e.stocks_remaining) 5
        [⟨28, 50, 1, false⟩, ⟨30, 55, 0, false⟩]) ∧
    (find_patterns comboTrailInput).stock_losses.countP
      (fun e => decide (e.stocks_remaining = 0)) ≤ 1 :=
  ⟨c3_dedup_final_retention.1 StockLossEvent (fun e => e.timestamp)
      (fun e => e.stocks_remaining) [⟨28, 50, 1, false⟩, ⟨30, 55, 0, false⟩]
      ⟨30, 55, 0, false⟩ (by decide) (by decide),
    (c3_dedup_final_retention.2.2.2 comboTrailInput).1⟩

theorem foldl_pick_default_irrel (l : List Nat) (p : Nat → Prop) [DecidablePred p]
    (d d' : Nat) (h : ∃ j ∈ l, p j) :
    l.foldl (fun acc j => if p j then j else acc) d =
      l.foldl (fun acc j => if p j then j else acc) d' := by
  induction l generalizing d d' with
  | nil =>
    obtain ⟨j, hj, _⟩ := h
    exact absurd hj (List.not_mem_nil j)
  | cons a t ih =>
    rw [List.foldl_cons, List.foldl_cons]
    by_cases hc : p a
    · rw [if_pos hc, if_pos hc]
    · rw [if_neg hc, if_neg hc]
      apply ih
      obtain ⟨j, hj, hcj⟩ := h
      rcases List.mem_cons.mp hj with heq | hm
      · subst heq
        exact absurd hcj hc
      · exact ⟨j, hm, hcj⟩

/-- The raw-index lookup is independent of the `.get` default whenever
some raw sample carries the requested timestamp. -/
theorem tsToRawIdx_irrel (gs : List Sample) (ts : Int) (d d' : Nat)
    (h : ∃ j, j < gs.length ∧ (gs.getD j dummy).timestamp = ts) :
    tsToRawIdx gs ts d = tsToRawIdx gs ts d' := by
  unfold tsToRawIdx
  apply foldl_pick_default_irrel
  obtain ⟨j, hj, hts⟩ := h
  exact ⟨j, List.mem_range.mpr hj, hts⟩

/-- Every event surviving deduplication comes from the input list. -/
theorem deduplicate_events_subset {α : Type} (ts key : α → Int) (w : Int)
    (l : List α) : ∀ e ∈ deduplicate_events ts key w l, e ∈ l := by
  intro e he
  unfold deduplicate_events at he
  split at he
  · exact he
  · obtain ⟨s, hs, hsub⟩ := dedupFold_go ts key w
      (l.insertionSort fun a b => ts a ≤ ts b) [] (-999)
    unfold dedupFold at he
    rw [hs, List.nil_append] at he
    exact (List.perm_insertionSort _ l).mem_iff.mp (hsub.subset he)

/-- The stock-side stages emit percents satisfying the raw-window
property: both detector paths take the raw-window maximum whenever it is
positive, and the synthesized game-enders are exempt by flag. -/
theorem postSections_raw (gs sm : List Sample) (c : Ctx) (d1 r1 d2 r2 : Option Int)
    (st : St) (i : Nat)
    (hct : c.timestamp = tsOf gs i) (hi : i < gs.length)
    (h1 : ∀ e ∈ st.pat.stock_losses, rawWindowP1 gs e)
    (h2 : ∀ e ∈ st.pat.kills, rawWindowP2 gs e) :
    (∀ e ∈ (noneFallbackSection sm c (gameEndSection c
        (killSection gs c d2 r2 (stockSection gs c d1 r1 st)))).pat.stock_losses,
      rawWindowP1 gs e) ∧
    (∀ e ∈ (noneFallbackSection sm c (gameEndSection c
        (killSection gs c d2 r2 (stockSection gs c d1 r1 st)))).pat.kills,
      rawWindowP2 gs e) := by
  have hirr : tsToRawIdx gs c.timestamp c.i = tsToRawIdx gs c.timestamp 0 :=
    tsToRawIdx_irrel gs c.timestamp c.i 0 ⟨i, hi, hct.symm⟩
  set S := stockSection gs c d1 r1 st with hS
  set K := killSection gs c d2 r2 S with hK
  set G := gameEndSection c K with hG
  have hS1 : (∀ e ∈ S.pat.stock_losses, rawWindowP1 gs e) ∧ S.pat.kills = st.pat.kills := by
    rw [hS]
    rcases d1 with _ | v
    · rcases r1 with _ | dp
      · rw [stockSection_skip]
        exact ⟨h1, rfl⟩
      · rw [stockSection_reset]
        refine ⟨?_, rfl⟩
        intro e he
        rcases List.mem_append.mp he with hm | hm
        · exact h1 e hm
        · rw [List.mem_singleton] at hm
          subst hm
          intro hge hpos
          dsimp only at hpos ⊢
          rw [hirr]
          rw [if_pos hpos]
    · rw [stockSection_death]
      refine ⟨?_, rfl⟩
      intro e he
      rcases List.mem_append.mp he with hm | hm
      · exact h1 e hm
      · rw [List.mem_singleton] at hm
        subst hm
        intro hge hpos
        dsimp only at hpos ⊢
        rw [hirr]
        rw [if_pos hpos]
  have hK2 : (∀ e ∈ K.pat.kills, rawWindowP2 gs e) ∧
      K.pat.stock_losses = S.pat.stock_losses := by
    rw [hK]
    have h2' : ∀ e ∈ S.pat.kills, rawWindowP2 gs e := by
      rw [hS1.2]
      exact h2
    rcases d2 with _ | v
    · rcases r2 with _ | dp
      · rw [killSection_skip]
        exact ⟨h2', rfl⟩
      · rw [killSection_reset]
        refine ⟨?_, rfl⟩
        intro e he
        rcases List.mem_append.mp he with hm | hm
        · exact h2' e hm
        · rw [List.mem_singleton] at hm
          subst hm
          intro hge hpos
          dsimp only at hpos ⊢
          rw [hirr]
          rw [if_pos hpos]
    · rw [killSection_death]
      refine ⟨?_, rfl⟩
      intro e he
      rcases List.mem_append.mp he with hm | hm
      · exact h2' e hm
      · rw [List.mem_singleton] at hm
        subst hm
        intro hge hpos
        dsimp only at hpos ⊢
        rw [hirr]
        rw [if_pos hpos]
  obtain ⟨hGsl, hGk, _, _, _⟩ := stockView_parts (gameEndSection_stockView c K)
  have hG1 : ∀ e ∈ G.pat.stock_losses, rawWindowP1 gs e := by
    rw [hGsl, hK2.2]
    exact hS1.1
  have hG2 : ∀ e ∈ G.pat.kills, rawWindowP2 gs e := by
    rw [hGk]
    exact hK2.1
  constructor
  · rcases noneFallbackSection_stock sm c G with hsame | ⟨_, happ⟩
    · rw [hsame]
      exact hG1
    · rw [happ]
      intro e he
      rcases List.mem_append.mp he with hm | hm
      · exact hG1 e hm
      · rw [List.mem_singleton] at hm
        subst hm
        intro hge
        exact absurd hge (by simp [rawWindowP1])
  · rcases noneFallbackSection_kills sm c G with hsame | ⟨_, happ⟩
    · rw [hsame]
      exact hG2
    · rw [happ]
      intro e he
      rcases List.mem_append.mp he with hm | hm
      · exact hG2 e hm
      · rw [List.mem_singleton] at hm
        subst hm
        intro hge
        exact absurd hge (by simp [rawWindowP2])

theorem stageB_raw (gs sm : List Sample) (gst : Int) (c : Ctx) (st : St) (i : Nat)
    (hct : c.timestamp = tsOf gs i) (hi : i < gs.length)
    (h1 : ∀ e ∈ st.pat.stock_losses, rawWindowP1 gs e)
    (h2 : ∀ e ∈ st.pat.kills, rawWindowP2 gs e) :
    (∀ e ∈ (stageB gs sm gst c st).pat.stock_losses, rawWindowP1 gs e) ∧
    (∀ e ∈ (stageB gs sm gst c st).pat.kills, rawWindowP2 gs e) := by
  obtain ⟨hB1, hB2, _, _, _⟩ := stockView_parts (stageB_stockView gs sm gst c st)
  rw [hB1, hB2]
  exact postSections_raw gs sm c _ _ _ _ st i hct hi h1 h2

theorem loopStep_raw (gs sm : List Sample) (gst : Int) (st : St) (i : Nat)
    (hsmts : tsOf sm i = tsOf gs i) (hi : i < gs.length)
    (h1 : ∀ e ∈ st.pat.stock_losses, rawWindowP1 gs e)
    (h2 : ∀ e ∈ st.pat.kills, rawWindowP2 gs e) :
    (∀ e ∈ (loopStep gs sm gst st i).pat.stock_losses, rawWindowP1 gs e) ∧
    (∀ e ∈ (loopStep gs sm gst st i).pat.kills, rawWindowP2 gs e) := by
  have hview : stockView ({ comboSection (mkCtx st (sm.getD i dummy) i)
      (spikeSection sm (mkCtx st (sm.getD i dummy) i)
        (trackMax gs (mkCtx st (sm.getD i dummy) i) st)) with
      prevTs := (mkCtx st (sm.getD i dummy) i).timestamp } : St) = stockView st := by
    rw [show ∀ (s : St) (x : Int), stockView { s with prevTs := x } = stockView s
        from fun _ _ => rfl]
    rw [comboSection_stockView, spikeSection_stockView, trackMax_stockView]
  obtain ⟨e1, e2, _, _, _⟩ := stockView_parts hview
  unfold loopStep
  dsimp only
  split
  · exact ⟨h1, h2⟩
  · split
    · rw [e1, e2]
      exact ⟨h1, h2⟩
    · refine stageB_raw gs sm gst (mkCtx st (sm.getD i dummy) i) _ i hsmts hi ?_ ?_
      · rw [e1]
        exact h1
      · rw [e2]
        exact h2

theorem runLoop_raw (gs : List Sample) :
    (∀ e ∈ (runLoop gs).pat.stock_losses, rawWindowP1 gs e) ∧
    (∀ e ∈ (runLoop gs).pat.kills, rawWindowP2 gs e) := by
  rw [runLoop_as_fold]
  refine foldl_mem_invariant (fun st : St =>
    (∀ e ∈ st.pat.stock_losses, rawWindowP1 gs e) ∧
    (∀ e ∈ st.pat.kills, rawWindowP2 gs e)) _ _ _
    ⟨fun e he => absurd he (List.not_mem_nil e),
     fun e he => absurd he (List.not_mem_nil e)⟩ ?_
  intro b i hi hb
  have hilt : i < gs.length := by
    rw [← smooth_length gs]
    exact List.mem_range.mp hi
  exact loopStep_raw gs (smooth_game_states gs) _ b i (smooth_timestamp gs i) hilt
    hb.1 hb.2

/-- C4 (amended): every confirmed (non-synthesized) stock loss and kill
takes its `percent` from the raw (pre-smoothing) 60-sample lookback
window before the event whenever that window holds a positive raw
reading; only when every raw reading there is missing or zero does the
engine fall back to the running maximum of the smoothed/carried series
(the behavior exhibited by `c4_counterexample`). -/
theorem c4_raw_window_amended (gs : List Sample) :
    (∀ e ∈ (find_patterns gs).stock_losses, rawWindowP1 gs e) ∧
    (∀ e ∈ (find_patterns gs).kills, rawWindowP2 gs e) := by
  by_cases hlen : gs.length < 2
  · unfold find_patterns
    rw [if_pos hlen]
    exact ⟨fun e he => absurd he (List.not_mem_nil e),
      fun e he => absurd he (List.not_mem_nil e)⟩
  · rw [find_patterns_of_runLoop gs hlen]
    dsimp only
    obtain ⟨h1, h2⟩ := runLoop_raw gs
    exact ⟨fun e he => h1 e (deduplicate_events_subset _ _ 5 _ e he),
      fun e he => h2 e (deduplicate_events_subset _ _ 5 _ e he)⟩

/-- C4 witness: the amended raw-window theorem applied to the confirmed
stock loss of `mirrorEdgeInput`, whose raw 60-sample window peaks at 80. -/
theorem c4_witness :
    ((⟨16, 80, 2, false⟩ : StockLossEvent) ∈
      (find_patterns mirrorEdgeInput).stock_losses) ∧
    0 < get_raw_max_before mirrorEdgeInput p1pct (tsToRawIdx mirrorEdgeInput 16 0) 60 ∧
    (⟨16, 80, 2, false⟩ : StockLossEvent).percent =
      get_raw_max_before mirrorEdgeInput p1pct (tsToRawIdx mirrorEdgeInput 16 0) 60 :=
  ⟨by decide, by decide,
    (c4_raw_window_amended mirrorEdgeInput).1 ⟨16, 80, 2, false⟩ (by decide) rfl
      (by decide)⟩

theorem find?_append_some {α : Type} (l₁ l₂ : List α) (p : α → Bool) (x : α)
    (h : l₁.find? p = some x) : (l₁ ++ l₂).find? p = some x := by
  rw [List.find?_append, h]
  rfl

theorem find?_append_none {α : Type} (l₁ l₂ : List α) (p : α → Bool)
    (h : l₁.find? p = none) : (l₁ ++ l₂).find? p = l₂.find? p := by
  rw [List.find?_append, h]
  rfl

theorem find?_singleton_some {α : Type} (p : α → Bool) (a : α) (h : p a = true) :
    [a].find? p = some a := by
  simp [List.find?_cons, h]

theorem find?_singleton_none {α : Type} (p : α → Bool) (a : α) (h : p a = false) :
    [a].find? p = none := by
  simp [List.find?_cons, h]

/-- The running-counter clean-start scan of the source computes exactly
the spec's first-run-of-3 scan. -/
theorem findCleanStart_eq_spec (sm : List Sample) :
    findCleanStart sm = specCleanStart sm := by
  have hmain := foldl_range_invariant (fun (n : Nat) (b : Option Int × Nat) =>
      b.2 ≤ n ∧
      (b.1 = none → ∀ j, j < n → n - b.2 ≤ j → isStartFrame (sm.getD j dummy) = true) ∧
      (b.1 = none → n - b.2 = 0 ∨ isStartFrame (sm.getD (n - b.2 - 1) dummy) = false) ∧
      (b.1 = none →
        ((List.range (n - 2)).find? fun s =>
          isStartFrame (sm.getD s dummy) && isStartFrame (sm.getD (s + 1) dummy) &&
            isStartFrame (sm.getD (s + 2) dummy)) = none ∧ b.2 < 3) ∧
      (∀ t, b.1 = some t → ∃ s,
        ((List.range (n - 2)).find? fun s =>
          isStartFrame (sm.getD s dummy) && isStartFrame (sm.getD (s + 1) dummy) &&
            isStartFrame (sm.getD (s + 2) dummy)) = some s ∧
        t = (sm.getD s dummy).timestamp))
    (fun acc i =>
      match acc with
      | (some t, c) => (some t, c)
      | (none, c) =>
        if isStartFrame (sm.getD i dummy) then
          if 3 ≤ c + 1 then (some (sm.getD (i - 2) dummy).timestamp, c + 1)
          else (none, c + 1)
        else (none, 0))
    sm.length ((none : Option Int), 0)
    ⟨Nat.le_refl 0, fun _ j hj _ => absurd hj (Nat.not_lt_zero j),
      fun _ => Or.inl rfl, fun _ => ⟨rfl, by omega⟩,
      fun t ht => Option.noConfusion ht⟩
    ?_
  · show ((List.range sm.length).foldl
      (fun acc i =>
        match acc with
        | (some t, c) => (some t, c)
        | (none, c) =>
          if isStartFrame (sm.getD i dummy) then
            if 3 ≤ c + 1 then (some (sm.getD (i - 2) dummy).timestamp, c + 1)
            else (none, c + 1)
          else (none, 0))
      ((none : Option Int), 0)).1 = specCleanStart sm
    obtain ⟨hA, hB, hM, hC, hD⟩ := hmain
    rcases hres : ((List.range sm.length).foldl
      (fun acc i =>
        match acc with
        | (some t, c) => (some t, c)
        | (none, c) =>
          if isStartFrame (sm.getD i dummy) then
            if 3 ≤ c + 1 then (some (sm.getD (i - 2) dummy).timestamp, c + 1)
            else (none, c + 1)
          else (none, 0))
      ((none : Option Int), 0)).1 with _ | t
    · rw [hres]
      unfold specCleanStart
      rw [(hC hres).1]
      rfl
    · rw [hres]
      obtain ⟨s, hfind, hts⟩ := hD t hres
      unfold specCleanStart
      rw [hfind, hts]
      rfl
  · rintro ⟨o, c⟩ i hi ⟨hA, hB, hM, hC, hD⟩
    dsimp only at hA hB hM hC hD
    cases o with
    | some t =>
      dsimp only
      refine ⟨by omega, fun h => Option.noConfusion h, fun h => Option.noConfusion h,
        fun h => Option.noConfusion h, ?_⟩
      intro u hu
      injection hu with hu
      obtain ⟨s, hfind, hts⟩ := hD t rfl
      refine ⟨s, ?_, by rw [← hu]; exact hts⟩
      by_cases h2 : 2 ≤ i
      · rw [show i + 1 - 2 = (i - 2) + 1 from by omega, List.range_succ]
        exact find?_append_some _ _ _ s hfind
      · exfalso
        rw [show i - 2 = 0 from by omega] at hfind
        exact Option.noConfusion hfind
    | none =>
      obtain ⟨hCf, hc3⟩ := hC rfl
      have hB' := hB rfl
      have hM' := hM rfl
      dsimp only
      by_cases hs : isStartFrame (sm.getD i dummy) = true
      · rw [if_pos hs]
        by_cases h3 : 3 ≤ c + 1
        · rw [if_pos h3]
          refine ⟨by omega, fun h => Option.noConfusion h, fun h => Option.noConfusion h,
            fun h => Option.noConfusion h, ?_⟩
          intro u hu
          injection hu with hu
          refine ⟨i - 2, ?_, by rw [← hu]⟩
          have h2i : 2 ≤ i := by omega
          rw [show i + 1 - 2 = (i - 2) + 1 from by omega, List.range_succ,
            find?_append_none _ _ _ hCf]
          refine find?_singleton_some _ (i - 2) ?_
          show (isStartFrame (sm.getD (i - 2) dummy) &&
            isStartFrame (sm.getD (i - 2 + 1) dummy) &&
            isStartFrame (sm.getD (i - 2 + 2) dummy)) = true
          have hm2 : isStartFrame (sm.getD (i - 2) dummy) = true :=
            hB' (i - 2) (by omega) (by omega)
          have hm1 : isStartFrame (sm.getD (i - 2 + 1) dummy) = true := by
            rw [show i - 2 + 1 = i - 1 from by omega]
            exact hB' (i - 1) (by omega) (by omega)
          have hm0 : isStartFrame (sm.getD (i - 2 + 2) dummy) = true := by
            rw [show i - 2 + 2 = i from by omega]
            exact hs
          rw [hm2, hm1, hm0]
          rfl
        · rw [if_neg h3]
          refine ⟨by omega, ?_, ?_, ?_, fun t ht => Option.noConfusion ht⟩
          · intro _ j hj hcj
            by_cases hji : j = i
            · rw [hji]
              exact hs
            · exact hB' j (by omega) (by omega)
          · intro _
            rcases hM' with h0 | hfalse
            · exact Or.inl (by omega)
            · refine Or.inr ?_
              rw [show i + 1 - (c + 1) - 1 = i - c - 1 from by omega]
              exact hfalse
          · intro _
            refine ⟨?_, by omega⟩
            by_cases h2i : 2 ≤ i
            · rw [show i + 1 - 2 = (i - 2) + 1 from by omega, List.range_succ,
                find?_append_none _ _ _ hCf]
              refine find?_singleton_none _ (i - 2) ?_
              show (isStartFrame (sm.getD (i - 2) dummy) &&
                isStartFrame (sm.getD (i - 2 + 1) dummy) &&
                isStartFrame (sm.getD (i - 2 + 2) dummy)) = false
              rcases hM' with h0 | hfalse
              · exact absurd h0 (by omega)
              · have hcases : i - c - 1 = i - 2 ∨ i - c - 1 = i - 2 + 1 := by omega
                rcases hcases with he | he
                · rw [he] at hfalse
                  rw [hfalse]
                  rfl
                · rw [he] at hfalse
                  rw [hfalse]
                  simp
            · rw [show i + 1 - 2 = 0 from by omega]
              rfl
      · rw [if_neg hs]
        have hsf : isStartFrame (sm.getD i dummy) = false := by
          cases hx : isStartFrame (sm.getD i dummy)
          · rfl
          · exact absurd hx hs
        refine ⟨by omega, ?_, ?_, ?_, fun t ht => Option.noConfusion ht⟩
        · intro _ j hj hcj
          omega
        · intro _
          refine Or.inr ?_
          rw [show i + 1 - 0 - 1 = i from by omega]
          exact hsf
        · intro _
          refine ⟨?_, by omega⟩
          by_cases h2i : 2 ≤ i
          · rw [show i + 1 - 2 = (i - 2) + 1 from by omega, List.range_succ,
              find?_append_none _ _ _ hCf]
            refine find?_singleton_none _ (i - 2) ?_
            show (isStartFrame (sm.getD (i - 2) dummy) &&
              isStartFrame (sm.getD (i - 2 + 1) dummy) &&
              isStartFrame (sm.getD (i - 2 + 2) dummy)) = false
            rw [show i - 2 + 2 = i from by omega, hsf]
            simp
          · rw [show i + 1 - 2 = 0 from by omega]
            rfl

/-- C7 (amended): the resolved match start is the timestamp of the first
sample of the first run of ≥ 3 consecutive smoothed samples where both
players read percent ≤ 5 and stocks = 3; if no such run exists, the
start falls back to the first sample at or after t = 5 s that has a
non-null percent AND a non-null stock reading (not "any non-null percent
or stock value" — see `c7_counterexample`); and every sample whose
timestamp is strictly before the resolved start is skipped by the main
pass (the iteration leaves the state unchanged). -/
theorem c7_start_resolution_amended (gs : List Sample) (hlen : ¬ gs.length < 2) :
    (find_patterns gs).game_start = resolveStart (smooth_game_states gs) ∧
    findCleanStart (smooth_game_states gs) = specCleanStart (smooth_game_states gs) ∧
    (∀ t, specCleanStart (smooth_game_states gs) = some t →
      resolveStart (smooth_game_states gs) = some t) ∧
    (specCleanStart (smooth_game_states gs) = none →
      resolveStart (smooth_game_states gs) =
        findFallbackStart (smooth_game_states gs)) ∧
    (∀ (st : St) (i : Nat),
      tsOf (smooth_game_states gs) i < (resolveStart (smooth_game_states gs)).getD 0 →
      loopStep gs (smooth_game_states gs)
        ((resolveStart (smooth_game_states gs)).getD 0) st i = st) := by
  refine ⟨?_, findCleanStart_eq_spec _, ?_, ?_, ?_⟩
  · rw [find_patterns_of_runLoop gs hlen]
    exact runLoop_game_start gs
  · intro t ht
    unfold resolveStart
    rw [findCleanStart_eq_spec, ht]
  · intro ht
    unfold resolveStart
    rw [findCleanStart_eq_spec, ht]
  · intro st i h
    unfold loopStep
    dsimp only
    exact if_pos h

/-- C7 witness: the amended start-resolution theorem applied to
`comboTrailInput`. -/
theorem c7_witness :
    ¬ comboTrailInput.length < 2 ∧
    (find_patterns comboTrailInput).game_start =
      resolveStart (smooth_game_states comboTrailInput) ∧
    findCleanStart (smooth_game_states comboTrailInput) =
      specCleanStart (smooth_game_states comboTrailInput) :=
  ⟨by decide, (c7_start_resolution_amended comboTrailInput (by decide)).1,
    (c7_start_resolution_amended comboTrailInput (by decide)).2.1⟩

end SSBU
